import Mathlib

/-!
# skillz-random.c: a shallow embedding

`Assets/Plugins/skillz-random.c` is a thin adapter layer over the MT19937
generator declared in `mt19937ar.h`.  The header is not among the sources, so the
generator core is modelled from the specification (the canonical `mt19937ar`
algorithm it names); the four adapter functions are translated from the C source.

Conventions.
* `int` is a 32-bit two's-complement integer, modelled by `Int` together with an
  explicit range check; `unsigned int` is `Nat` reduced modulo `2 ^ 32`.
* The C functions report no errors.  Executions that the C standard leaves
  undefined (division by zero, signed overflow, a store past the end of a local
  array) are made explicit as `Undefined` outcomes.  They are not error returns.
* The unbounded self-recursion of `getRandomNumberWithMin` is bounded by a fuel
  argument that counts the draws the call may consume.
* `float` values are modelled by the rational number they denote; every
  conversion or operation producing a `float` goes through `roundToFloat`.
-/

namespace SkillzRandom

/-! ## MT19937 core (`mt19937ar.h`) -/

/-- Modelled from the spec: the length of the generator state of `mt19937ar.h`,
"an ordered sequence of 624 unsigned 32-bit words". -/
def N : Nat := 624

/-- Modelled from the spec: the middle offset `M` of the canonical MT19937 twist
(`mt19937ar.h` is not among the sources). -/
def M : Nat := 397

/-- Modelled from the spec: the twist matrix constant, "matrix A = 0x9908b0df". -/
def MATRIX_A : Nat := 0x9908b0df

/-- Modelled from the spec: mask selecting the "high bit of word[i]". -/
def UPPER_MASK : Nat := 0x80000000

/-- Modelled from the spec: mask selecting the "low 31 bits of word[i+1]". -/
def LOWER_MASK : Nat := 0x7fffffff

/-- Modelled from the spec: the generator state of `mt19937ar.h`, "624 unsigned
32-bit words plus an index".  The word array `mt` is stored packed in one natural
number, word `i` occupying bits `32 * i .. 32 * i + 31`, so that every word is a
32-bit quantity by construction. -/
structure MTState where
  mt : Nat
  mti : Nat
deriving DecidableEq, Repr

/-- Read `mt[i]` from the packed word array. -/
def word (mt i : Nat) : Nat := (mt >>> (32 * i)) % 2 ^ 32

/-- Store `mt[i] = v`, truncating `v` to 32 bits. -/
def setWord (mt i v : Nat) : Nat := mt ^^^ ((word mt i ^^^ (v % 2 ^ 32)) <<< (32 * i))

/-- Loop of `init_genrand`: `k` further iterations starting at index `i`, each
computing `mt[i] = 1812433253 * (mt[i-1] ^ (mt[i-1] >> 30)) + i` truncated to
32 bits. -/
def init_genrand_loop (mt : Nat) : Nat → Nat → Nat
  | _, 0 => mt
  | i, k + 1 =>
    let prev := word mt (i - 1)
    init_genrand_loop (setWord mt i (1812433253 * (prev ^^^ (prev >>> 30)) + i)) (i + 1) k

/-- Modelled from the spec: `seed_scalar` (`init_genrand` of `mt19937ar.h`, absent
from the sources): "initializes the 624-word state from a single integer using the
standard MT19937 linear initialization recurrence ... Resets index to 624". -/
def init_genrand (s : Nat) (st : MTState) : MTState :=
  { mt := init_genrand_loop (setWord st.mt 0 s) 1 (N - 1), mti := N }

/-- Index wrap-around shared by both passes of `init_by_array`:
`if (i >= N) { mt[0] = mt[N-1]; i = 1; }`. -/
def wrapIndex (mt : Nat) (i : Nat) : Nat × Nat :=
  if i ≥ N then (setWord mt 0 (word mt (N - 1)), 1) else (mt, i)

/-- First pass of `init_by_array`: `k` iterations of
`mt[i] = (mt[i] ^ ((mt[i-1] ^ (mt[i-1] >> 30)) * 1664525)) + init_key[j] + j`,
then `i++; j++`, the wrap of `i`, and `if (j >= key_length) j = 0`. -/
def init_by_array_pass1 (init_key : Nat → Nat) (key_length : Int) :
    Nat → Nat → Nat → Nat → Nat × Nat
  | 0, mt, i, _ => (mt, i)
  | k + 1, mt, i, j =>
    let prev := word mt (i - 1)
    let mt1 := setWord mt i
      ((word mt i ^^^ ((prev ^^^ (prev >>> 30)) * 1664525)) + init_key j + j)
    let r := wrapIndex mt1 (i + 1)
    let j2 := if ((j + 1 : Nat) : Int) ≥ key_length then 0 else j + 1
    init_by_array_pass1 init_key key_length k r.1 r.2 j2

/-- Second pass of `init_by_array`: `k` iterations of
`mt[i] = (mt[i] ^ ((mt[i-1] ^ (mt[i-1] >> 30)) * 1566083941)) - i` modulo `2 ^ 32`,
then `i++` and the wrap of `i`. -/
def init_by_array_pass2 : Nat → Nat → Nat → Nat × Nat
  | 0, mt, i => (mt, i)
  | k + 1, mt, i =>
    let prev := word mt (i - 1)
    let mt1 := setWord mt i
      ((word mt i ^^^ ((prev ^^^ (prev >>> 30)) * 1566083941)) + 2 ^ 32 - i)
    let r := wrapIndex mt1 (i + 1)
    init_by_array_pass2 k r.1 r.2

/-- Modelled from the spec: `seed_array` (`init_by_array` of `mt19937ar.h`, absent
from the sources): "the standard two-stage MT19937 array-seeding algorithm: first
seed_scalar with a fixed constant (19650218), then mix in the provided seed
sequence across two passes ..., and a final normalization step".  The key is read
through the pointer `init_key`, here the contents of the memory it points to.  The
first pass runs `max(624, key_length)` times; the second runs `N - 1` times as in
the canonical algorithm, whose reference vectors the specification requires. -/
def init_by_array (init_key : Nat → Nat) (key_length : Int) (st : MTState) : MTState :=
  let s0 := init_genrand 19650218 st
  let k := if (N : Int) > key_length then N else key_length.toNat
  let r1 := init_by_array_pass1 init_key key_length k s0.mt 1 0
  let r2 := init_by_array_pass2 (N - 1) r1.1 r1.2
  { mt := setWord r2.1 0 0x80000000, mti := s0.mti }

/-- Loop of the twist: `k` further iterations starting at word `kk`, in place, with
indices taken modulo `N`. -/
def twist_loop (mt : Nat) : Nat → Nat → Nat
  | _, 0 => mt
  | kk, k + 1 =>
    let y := (word mt kk &&& UPPER_MASK) ||| (word mt ((kk + 1) % N) &&& LOWER_MASK)
    let mag := if y &&& 1 = 0 then 0 else MATRIX_A
    twist_loop (setWord mt kk (word mt ((kk + M) % N) ^^^ (y >>> 1) ^^^ mag)) (kk + 1) k

/-- Modelled from the spec: the "twist" of `next_u32`, which "regenerates all 624
words ... (combining high bit of word[i], low 31 bits of word[i+1], XOR-shift-mask
with matrix A = 0x9908b0df, applied mod 624 with wraparound)". -/
def twist (mt : Nat) : Nat := twist_loop mt 0 N

/-- Modelled from the spec: "the standard tempering transform (series of
XOR/shift/AND-mask operations with constants 0x9d2c5680 and 0xefc60000)". -/
def temper (y0 : Nat) : Nat :=
  let y1 := y0 ^^^ (y0 >>> 11)
  let y2 := y1 ^^^ ((y1 <<< 7) &&& 0x9d2c5680)
  let y3 := y2 ^^^ ((y2 <<< 15) &&& 0xefc60000)
  y3 ^^^ (y3 >>> 18)

/-- Modelled from the spec: `next_u32` (`genrand_int32` of `mt19937ar.h`, absent
from the sources): "if index ≥ 624, performs the twist ..., then resets index to 0.
Extracts word at current index, applies the standard tempering transform,
increments index, returns result". -/
def genrand_int32 (st : MTState) : Nat × MTState :=
  let st1 : MTState := if st.mti ≥ N then { mt := twist st.mt, mti := 0 } else st
  (temper (word st1.mt st1.mti), { st1 with mti := st1.mti + 1 })

/-- Modelled from the spec: `next_u31` (`genrand_int31` of `mt19937ar.h`, absent
from the sources): "returns next_u32() right-shifted by 1 bit". -/
def genrand_int31 (st : MTState) : Nat × MTState :=
  let r := genrand_int32 st
  (r.1 >>> 1, r.2)

/-! ## C integer and float conventions -/

/-- Smallest value of a 32-bit `int`. -/
def INT_MIN : Int := -2147483648

/-- Largest value of a 32-bit `int`. -/
def INT_MAX : Int := 2147483647

/-- Modelled from the spec: `RAND_MAX` of `<stdlib.h>`, which is not among the
sources; the specification names it `INT31_MAX`, the largest 31-bit draw. -/
def RAND_MAX : Int := 2147483647

/-- Conversion of an integer value to `int` (two's-complement reduction). -/
def toInt32 (x : Int) : Int := (x + 2147483648) % 4294967296 - 2147483648

/-- Conversion of an integer value to `unsigned int`: reduction modulo `2 ^ 32`. -/
def toUInt32 (x : Int) : Nat := (x % 4294967296).toNat

/-- Round a rational to the nearest integer, ties to the even one. -/
def roundHalfEven (m : ℚ) : ℤ :=
  let f := ⌊m⌋
  let d := m - (f : ℚ)
  if d < 1 / 2 then f else if 1 / 2 < d then f + 1 else if f % 2 = 0 then f else f + 1

/-- The `float` (IEEE binary32, 24-bit significand, round to nearest even) nearest
to the rational `q`, as a rational.  The exponent range is not modelled: the values
arising in `getRandomFloat` lie between `2 ^ (-24)` and `2 ^ 32`, well inside the
normal range. -/
def roundToFloat (q : ℚ) : ℚ :=
  if q = 0 then 0
  else
    let ulp : ℚ := (2 : ℚ) ^ (Int.log 2 |q| - 23)
    (roundHalfEven (q / ulp) : ℚ) * ulp

/-- Executions whose behaviour the C standard leaves undefined. -/
inductive Undefined where
  | divisionByZero
  | signedOverflow
  | storePastBuffer (index : Nat)
deriving DecidableEq, Repr

/-- Result of running a C function of the adapter layer on a generator state:
it returns a value and leaves a generator state, or the execution is undefined,
or the fuel bounding the recursion ran out before it returned. -/
inductive Outcome (α : Type) where
  | returned (value : α) (gen : MTState)
  | undefined (ub : Undefined)
  | outOfFuel
deriving DecidableEq, Repr

/-! ## The adapter layer (`skillz-random.c`) -/

/-- The constant `kMaxNumberSeeds` of `seedRandomWithArray`; the local buffer
`seeds` has this many slots. -/
def kMaxNumberSeeds : Nat := 624

/-- The loop `for (int i = 0; i < count; i++) seeds[counter++] = numbers[i];` of
`seedRandomWithArray`, with `k` iterations left.  `numbers i` is the `unsigned int`
read through the pointer `numbers`; there is no bound check in the source, so an
iteration with `counter` at or past `kMaxNumberSeeds` stores past the end of
`seeds`. -/
def seedRandomWithArray_loop (numbers : Nat → Nat) :
    Nat → Nat → Nat → (Nat → Nat) → Except Undefined ((Nat → Nat) × Nat)
  | 0, _, counter, seeds => .ok (seeds, counter)
  | k + 1, i, counter, seeds =>
    if kMaxNumberSeeds ≤ counter then .error (.storePastBuffer counter)
    else
      seedRandomWithArray_loop numbers k (i + 1) (counter + 1)
        (Function.update seeds counter (numbers i % 2 ^ 32))

/-- `void seedRandomWithArray(unsigned int *numbers, int count)`.  `frame` is the
indeterminate initial content of the uninitialised local array `seeds`; the loop
runs `count` times when `count` is positive and not at all otherwise. -/
def seedRandomWithArray (numbers : Nat → Nat) (count : Int) (frame : Nat → Nat)
    (st : MTState) : Outcome Unit :=
  match seedRandomWithArray_loop numbers count.toNat 0 0 frame with
  | .error ub => .undefined ub
  | .ok (seeds, counter) => .returned () (init_by_array seeds (counter : Int) st)

/-- `int getRandomNumber() { return genrand_int31(); }`: the `long` result is
converted to `int`. -/
def getRandomNumber (st : MTState) : Int × MTState :=
  let r := genrand_int31 st
  (toInt32 (r.1 : Int), r.2)

/-- What one activation of `getRandomNumberWithMin` does with its draw. -/
inductive Attempt where
  | retry
  | accept (value : Nat)
  | undefined (ub : Undefined)
deriving DecidableEq, Repr

/-- Whether an integer value is representable as a 32-bit `int`. -/
def inInt32 (x : Int) : Bool := decide (INT_MIN ≤ x) && decide (x ≤ INT_MAX)

/-- The body of `getRandomNumberWithMin(min, max)` after the draw `base_random`
has been taken, up to the point where it returns or calls itself again.  The
subtraction `max - min` and the addition `min + base_random / bucket` are checked
for signed overflow and both divisors for zero; `RAND_MAX % range`,
`RAND_MAX / range`, `RAND_MAX - remainder` and `base_random / bucket` cannot leave
the `int` range for a draw in `0 .. RAND_MAX`.  Division and remainder truncate
towards zero, as in C. -/
def attempt (min max base_random : Int) : Attempt :=
  if RAND_MAX = base_random then .retry
  else
    let range := max - min
    if !inInt32 range then .undefined .signedOverflow
    else if range = 0 then .undefined .divisionByZero
    else
      let remainder := RAND_MAX.tmod range
      let bucket := RAND_MAX.tdiv range
      if base_random < RAND_MAX - remainder then
        if bucket = 0 then .undefined .divisionByZero
        else
          let v := min + base_random.tdiv bucket
          if !inInt32 v then .undefined .signedOverflow
          else .accept (toUInt32 v)
      else .retry

/-- How an activation of `getRandomNumberWithMin` ends once its body has run on a
draw: it returns the accepted value, leaving the generator in state `st`, or its
execution is undefined, or it returns whatever its self-call `again` returns. -/
def finishAttempt (a : Attempt) (st : MTState) (again : Outcome Nat) : Outcome Nat :=
  match a with
  | .retry => again
  | .accept v => .returned v st
  | .undefined ub => .undefined ub

/-- `unsigned int getRandomNumberWithMin(int min, int max)`: draw, then return the
value of an accepted draw converted to `unsigned int`, or call itself again.  The
first argument bounds the number of draws. -/
def getRandomNumberWithMin : Nat → Int → Int → MTState → Outcome Nat
  | 0, _, _, _ => .outOfFuel
  | fuel + 1, min, max, st =>
    let r := getRandomNumber st
    finishAttempt (attempt min max r.1) r.2 (getRandomNumberWithMin fuel min max r.2)

/-- `float getRandomFloat()`: the top `randomIntBitLength = 24` bits of one 32-bit
draw, stored in a `uint32_t`, converted to `float` and divided by
`(float)(1 << 24)`. -/
def getRandomFloat (st : MTState) : ℚ × MTState :=
  let randomIntBitLength : Nat := 24
  let r := genrand_int32 st
  let nextRandomInt : Nat := (r.1 >>> (32 - randomIntBitLength)) % 2 ^ 32
  let nextRandomFloat : ℚ :=
    roundToFloat (roundToFloat (nextRandomInt : ℚ)
      / roundToFloat (((1 <<< randomIntBitLength : Nat) : Int) : ℚ))
  (nextRandomFloat, r.2)

/-- The generator state after `n` calls of `getRandomNumber`. -/
def afterDraws (st : MTState) : Nat → MTState
  | 0 => st
  | n + 1 => (getRandomNumber (afterDraws st n)).2

/-- The value of the `n`-th call (counting from 0) of `getRandomNumber` made from
state `st`. -/
def nthDraw (st : MTState) (n : Nat) : Int := (getRandomNumber (afterDraws st n)).1

/-! ## Runs of the generator core -/

/-- A seeding call of the generator core: `seed_scalar(seed)` or
`seed_array(seeds, count)`. -/
inductive SeedCall where
  | scalar (s : Nat)
  | array (init_key : Nat → Nat) (key_length : Int)

/-- The generator state a seeding call leaves, started on the state `st`. -/
def SeedCall.run : SeedCall → MTState → MTState
  | .scalar s, st => init_genrand s st
  | .array init_key key_length, st => init_by_array init_key key_length st

/-- An extraction call of the generator core: `next_u32()` or `next_u31()`. -/
inductive Extraction where
  | u32
  | u31
deriving DecidableEq, Repr

/-- The generator state an extraction call leaves. -/
def Extraction.run : Extraction → MTState → MTState
  | .u32, st => (genrand_int32 st).2
  | .u31, st => (genrand_int31 st).2

/-- The generator state after a sequence of extraction calls, made in order. -/
def runExtractions (st : MTState) : List Extraction → MTState
  | [] => st
  | e :: es => runExtractions (e.run st) es

/-- The number of twists performed by `n` consecutive `genrand_int32` calls made
from state `st`: a call performs the twist exactly when it finds `mti ≥ N`. -/
def twistCount (st : MTState) : Nat → Nat
  | 0 => 0
  | n + 1 => (if st.mti ≥ N then 1 else 0) + twistCount (genrand_int32 st).2 n

/-- The generator state after `n` consecutive `genrand_int32` calls. -/
def afterCalls (st : MTState) : Nat → MTState
  | 0 => st
  | n + 1 => afterCalls (genrand_int32 st).2 n

/-- Whether an activation of `getRandomNumberWithMin` accepts its draw. -/
def Attempt.isAccept : Attempt → Bool
  | .accept _ => true
  | _ => false

/-! ## Bounds on the generator output -/

theorem word_lt (mt i : Nat) : word mt i < 2 ^ 32 := by
  unfold word
  exact Nat.mod_lt _ (by norm_num)

theorem shiftRight_lt_of_lt (y k n : Nat) (hy : y < n) : y >>> k < n := by
  rw [Nat.shiftRight_eq_div_pow]
  exact lt_of_le_of_lt (Nat.div_le_self _ _) hy

theorem temper_lt (y : Nat) (hy : y < 2 ^ 32) : temper y < 2 ^ 32 := by
  unfold temper
  have h1 : y ^^^ (y >>> 11) < 2 ^ 32 :=
    Nat.xor_lt_two_pow hy (shiftRight_lt_of_lt _ _ _ hy)
  have h2 : (y ^^^ (y >>> 11)) ^^^ (((y ^^^ (y >>> 11)) <<< 7) &&& 0x9d2c5680) < 2 ^ 32 :=
    Nat.xor_lt_two_pow h1 (Nat.and_lt_two_pow _ (by norm_num))
  have h3 := Nat.xor_lt_two_pow h2
    (Nat.and_lt_two_pow (((y ^^^ (y >>> 11)) ^^^ (((y ^^^ (y >>> 11)) <<< 7) &&& 0x9d2c5680)) <<< 15)
      (show 0xefc60000 < 2 ^ 32 by norm_num))
  exact Nat.xor_lt_two_pow h3 (shiftRight_lt_of_lt _ _ _ h3)

theorem genrand_int32_lt (st : MTState) : (genrand_int32 st).1 < 2 ^ 32 := by
  unfold genrand_int32
  exact temper_lt _ (word_lt _ _)

theorem genrand_int31_lt (st : MTState) : (genrand_int31 st).1 < 2 ^ 31 := by
  unfold genrand_int31
  have h := genrand_int32_lt st
  simp only [Nat.shiftRight_eq_div_pow]
  omega

theorem toInt32_of_inRange (x : Int) (h1 : -2147483648 ≤ x) (h2 : x ≤ 2147483647) :
    toInt32 x = x := by
  unfold toInt32
  omega

theorem getRandomNumber_fst (st : MTState) :
    (getRandomNumber st).1 = ((genrand_int31 st).1 : Int) := by
  unfold getRandomNumber
  have h := genrand_int31_lt st
  exact toInt32_of_inRange _ (by omega) (by omega)

theorem getRandomNumber_nonneg (st : MTState) : 0 ≤ (getRandomNumber st).1 := by
  rw [getRandomNumber_fst]; omega

theorem getRandomNumber_le (st : MTState) : (getRandomNumber st).1 ≤ RAND_MAX := by
  rw [getRandomNumber_fst]
  have h := genrand_int31_lt st
  unfold RAND_MAX
  omega

/-! ## One activation of `getRandomNumberWithMin` on a well-formed range -/

theorem inInt32_iff (x : Int) : inInt32 x = true ↔ -2147483648 ≤ x ∧ x ≤ 2147483647 := by
  simp [inInt32, INT_MIN, INT_MAX]

theorem bucket_pos (r : Int) (h1 : 1 ≤ r) (h2 : r ≤ 2147483647) : 1 ≤ RAND_MAX / r := by
  unfold RAND_MAX
  exact Int.le_ediv_of_mul_le (by omega) (by omega)

theorem accepted_eq_mul (r : Int) :
    RAND_MAX - RAND_MAX % r = r * (RAND_MAX / r) := by
  have := Int.emod_add_ediv RAND_MAX r
  omega

theorem quotient_lt_range (r base : Int) (h1 : 1 ≤ r) (h2 : r ≤ 2147483647) (hb0 : 0 ≤ base)
    (hacc : base < RAND_MAX - RAND_MAX % r) :
    0 ≤ base / (RAND_MAX / r) ∧ base / (RAND_MAX / r) < r := by
  have hbk := bucket_pos r h1 h2
  rw [accepted_eq_mul r] at hacc
  constructor
  · exact Int.ediv_nonneg hb0 (by omega)
  · exact Int.ediv_lt_of_lt_mul (by omega) hacc

theorem attempt_of_pos_range (min max base : Int)
    (hmin : INT_MIN ≤ min) (hmax : max ≤ INT_MAX) (hlt : min < max)
    (hrep : max - min ≤ INT_MAX) (hb0 : 0 ≤ base) :
    attempt min max base =
      if base < RAND_MAX - RAND_MAX % (max - min)
      then .accept (toUInt32 (min + base / (RAND_MAX / (max - min))))
      else .retry := by
  unfold INT_MIN at hmin
  unfold INT_MAX at hmax hrep
  have hr1 : 1 ≤ max - min := by omega
  have hmod : RAND_MAX.tmod (max - min) = RAND_MAX % (max - min) :=
    Int.tmod_eq_emod (by decide) (by omega)
  have hdiv : RAND_MAX.tdiv (max - min) = RAND_MAX / (max - min) :=
    Int.tdiv_eq_ediv (by decide) (by omega)
  have hbk := bucket_pos (max - min) hr1 hrep
  have hdiv2 : base.tdiv (RAND_MAX / (max - min)) = base / (RAND_MAX / (max - min)) :=
    Int.tdiv_eq_ediv hb0 (by omega)
  have hrange : inInt32 (max - min) = true := (inInt32_iff _).2 ⟨by omega, by omega⟩
  have hrem : 0 ≤ RAND_MAX % (max - min) := Int.emod_nonneg _ (by omega)
  unfold attempt
  by_cases hRb : RAND_MAX = base
  · have : ¬ base < RAND_MAX - RAND_MAX % (max - min) := by omega
    rw [if_pos hRb, if_neg this]
  · by_cases hacc : base < RAND_MAX - RAND_MAX % (max - min)
    · have hq := quotient_lt_range (max - min) base hr1 hrep hb0 hacc
      have hv : inInt32 (min + base / (RAND_MAX / (max - min))) = true :=
        (inInt32_iff _).2 ⟨by omega, by omega⟩
      have hne : max - min ≠ 0 := by omega
      have hbne : RAND_MAX / (max - min) ≠ 0 := by omega
      simp [hRb, hrange, hne, hmod, hdiv, hdiv2, hacc, hbne, hv]
    · have hne : max - min ≠ 0 := by omega
      simp [hRb, hrange, hne, hmod, hdiv, hacc]

theorem attempt_accept_inv (min max base : Int) (v : Nat)
    (h : attempt min max base = .accept v) :
    inInt32 (max - min) = true ∧ max - min ≠ 0 ∧
      base < RAND_MAX - RAND_MAX.tmod (max - min) ∧
      inInt32 (min + base.tdiv (RAND_MAX.tdiv (max - min))) = true ∧
      v = toUInt32 (min + base.tdiv (RAND_MAX.tdiv (max - min))) := by
  by_cases h1 : RAND_MAX = base
  · simp [attempt, h1] at h
  by_cases h2 : inInt32 (max - min) = true
  swap
  · simp [attempt, h1, h2] at h
  by_cases h3 : max - min = 0
  · rw [h3] at h2
    simp [attempt, h1, h2, h3] at h
  by_cases h4 : base < RAND_MAX - RAND_MAX.tmod (max - min)
  swap
  · simp [attempt, h1, h2, h3, h4] at h
  by_cases h5 : RAND_MAX.tdiv (max - min) = 0
  · simp [attempt, h1, h2, h3, h4, h5] at h
  by_cases h6 : inInt32 (min + base.tdiv (RAND_MAX.tdiv (max - min))) = true
  swap
  · simp [attempt, h1, h2, h3, h4, h5, h6] at h
  simp [attempt, h1, h2, h3, h4, h5, h6] at h
  exact ⟨h2, h3, h4, h6, h.symm⟩

theorem attempt_accept_sound (min max base : Int) (v : Nat) (hlt : min < max)
    (hb0 : 0 ≤ base) (h : attempt min max base = .accept v) :
    ∃ w : Int, min ≤ w ∧ w < max ∧ INT_MIN ≤ w ∧ w ≤ INT_MAX ∧ v = toUInt32 w := by
  obtain ⟨hr, _, hacc, hv, hveq⟩ := attempt_accept_inv min max base v h
  rw [inInt32_iff] at hr hv
  have hr1 : 1 ≤ max - min := by omega
  have hmod : RAND_MAX.tmod (max - min) = RAND_MAX % (max - min) :=
    Int.tmod_eq_emod (by decide) (by omega)
  have hdiv : RAND_MAX.tdiv (max - min) = RAND_MAX / (max - min) :=
    Int.tdiv_eq_ediv (by decide) (by omega)
  have hbk := bucket_pos (max - min) hr1 hr.2
  have hdiv2 : base.tdiv (RAND_MAX / (max - min)) = base / (RAND_MAX / (max - min)) :=
    Int.tdiv_eq_ediv hb0 (by omega)
  rw [hmod] at hacc
  rw [hdiv, hdiv2] at hv hveq
  have hq := quotient_lt_range (max - min) base hr1 hr.2 hb0 hacc
  exact ⟨min + base / (RAND_MAX / (max - min)), by omega, by omega,
    by unfold INT_MIN; omega, by unfold INT_MAX; omega, hveq⟩

theorem toUInt32_eq (x : Int) : toUInt32 x = (x % 2 ^ 32).toNat := by
  unfold toUInt32
  norm_num

theorem toUInt32_cast (x : Int) : ((toUInt32 x : Nat) : Int) = x % 2 ^ 32 := by
  rw [toUInt32_eq]
  exact Int.toNat_of_nonneg (Int.emod_nonneg _ (by norm_num))

theorem toUInt32_of_nonneg (w : Int) (h0 : 0 ≤ w) (h1 : w ≤ 2147483647) :
    ((toUInt32 w : Nat) : Int) = w := by
  unfold toUInt32
  omega

/-! ## The retry loop of `getRandomNumberWithMin` -/

theorem getRandomNumberWithMin_zero (min max : Int) (st : MTState) :
    getRandomNumberWithMin 0 min max st = .outOfFuel := rfl

theorem getRandomNumberWithMin_succ (fuel : Nat) (min max : Int) (st : MTState) :
    getRandomNumberWithMin (fuel + 1) min max st =
      finishAttempt (attempt min max (getRandomNumber st).1) (getRandomNumber st).2
        (getRandomNumberWithMin fuel min max (getRandomNumber st).2) := rfl

theorem afterDraws_shift (st : MTState) (n : Nat) :
    afterDraws (getRandomNumber st).2 n = afterDraws st (n + 1) := by
  induction n with
  | zero => rfl
  | succ n ih => simp only [afterDraws, ih]

theorem nthDraw_shift (st : MTState) (n : Nat) :
    nthDraw (getRandomNumber st).2 n = nthDraw st (n + 1) := by
  unfold nthDraw
  rw [afterDraws_shift]

theorem nthDraw_nonneg (st : MTState) (n : Nat) : 0 ≤ nthDraw st n :=
  getRandomNumber_nonneg _

theorem nthDraw_le (st : MTState) (n : Nat) : nthDraw st n ≤ RAND_MAX :=
  getRandomNumber_le _

theorem returned_inv (fuel : Nat) (min max : Int) (st st1 : MTState) (v : Nat)
    (h : getRandomNumberWithMin fuel min max st = .returned v st1) :
    ∃ n, n < fuel ∧ attempt min max (nthDraw st n) = .accept v ∧
      st1 = afterDraws st (n + 1) ∧
      ∀ i, i < n → attempt min max (nthDraw st i) = .retry := by
  induction fuel generalizing st with
  | zero => exact absurd h (by rw [getRandomNumberWithMin_zero]; simp)
  | succ fuel ih =>
    rw [getRandomNumberWithMin_succ] at h
    cases hat : attempt min max (getRandomNumber st).1 with
    | retry =>
      rw [hat] at h
      simp only [finishAttempt] at h
      obtain ⟨n, hn, ha, hs, hr⟩ := ih _ h
      refine ⟨n + 1, by omega, ?_, ?_, ?_⟩
      · rw [← nthDraw_shift]; exact ha
      · rw [hs, afterDraws_shift]
      · intro i hi
        cases i with
        | zero => exact hat
        | succ i => rw [← nthDraw_shift]; exact hr i (by omega)
    | accept w =>
      rw [hat] at h
      simp only [finishAttempt] at h
      simp only [Outcome.returned.injEq] at h
      refine ⟨0, by omega, ?_, ?_, ?_⟩
      · rw [← h.1]; exact hat
      · rw [← h.2]; rfl
      · intro i hi; omega
    | undefined ub =>
      rw [hat] at h
      simp only [finishAttempt] at h
      exact absurd h (by simp)

theorem undefined_inv (fuel : Nat) (min max : Int) (st : MTState) (ub : Undefined)
    (h : getRandomNumberWithMin fuel min max st = .undefined ub) :
    ∃ n, n < fuel ∧ attempt min max (nthDraw st n) = .undefined ub := by
  induction fuel generalizing st with
  | zero => exact absurd h (by rw [getRandomNumberWithMin_zero]; simp)
  | succ fuel ih =>
    rw [getRandomNumberWithMin_succ] at h
    cases hat : attempt min max (getRandomNumber st).1 with
    | retry =>
      rw [hat] at h
      simp only [finishAttempt] at h
      obtain ⟨n, hn, ha⟩ := ih _ h
      exact ⟨n + 1, by omega, by rw [← nthDraw_shift]; exact ha⟩
    | accept w =>
      rw [hat] at h
      simp only [finishAttempt] at h
      exact absurd h (by simp)
    | undefined ub1 =>
      rw [hat] at h
      simp only [finishAttempt] at h
      simp only [Outcome.undefined.injEq] at h
      exact ⟨0, by omega, by rw [← h]; exact hat⟩

theorem returned_of_first_accept (min max : Int) (st : MTState) (n : Nat) (v : Nat)
    (hacc : attempt min max (nthDraw st n) = .accept v)
    (hret : ∀ i, i < n → attempt min max (nthDraw st i) = .retry)
    (fuel : Nat) (hfuel : n < fuel) :
    getRandomNumberWithMin fuel min max st = .returned v (afterDraws st (n + 1)) := by
  induction n generalizing st fuel with
  | zero =>
    obtain ⟨f, rfl⟩ : ∃ f, fuel = f + 1 := ⟨fuel - 1, by omega⟩
    rw [getRandomNumberWithMin_succ]
    have : attempt min max (getRandomNumber st).1 = .accept v := hacc
    rw [this]
    rfl
  | succ n ih =>
    obtain ⟨f, rfl⟩ : ∃ f, fuel = f + 1 := ⟨fuel - 1, by omega⟩
    rw [getRandomNumberWithMin_succ]
    have h0 : attempt min max (getRandomNumber st).1 = .retry := hret 0 (by omega)
    rw [h0]
    have := ih (getRandomNumber st).2 (by rw [nthDraw_shift]; exact hacc)
      (fun i hi => by rw [nthDraw_shift]; exact hret (i + 1) (by omega)) f (by omega)
    rw [finishAttempt, this, afterDraws_shift]

/-! ## C1: the returned value and the interval `[min, max)` -/

/-- C1, counterexample: for `min = -5 < max = 0` and a generator whose next draw is
`0`, `getRandomNumberWithMin` returns the `unsigned int` 4294967291, which does not
satisfy `min ≤ v < max`. -/
theorem getRandomNumberWithMin_negative_min_counterexample :
    getRandomNumberWithMin 1 (-5) 0 { mt := 0, mti := 0 }
        = .returned 4294967291 { mt := 0, mti := 1 } ∧
      ¬ ((-5 : Int) ≤ ((4294967291 : Nat) : Int) ∧ ((4294967291 : Nat) : Int) < 0) := by
  decide

/-- C1, amended: for every pair of 32-bit integers `min < max` whose difference
`max - min` is representable as an `int` (`max - min ≤ 2^31 - 1`), every generator
state and every bound on the number of draws, a value `v` returned by
`getRandomNumberWithMin min max` is the `unsigned int` conversion of some `int` `w`
with `min ≤ w < max`; when `min ≥ 0` it satisfies `min ≤ v < max` itself. -/
theorem getRandomNumberWithMin_returned_in_range (min max : Int)
    (hmin : INT_MIN ≤ min) (hmax : max ≤ INT_MAX) (hlt : min < max)
    (hrep : max - min ≤ 2 ^ 31 - 1)
    (fuel : Nat) (st st1 : MTState) (v : Nat)
    (h : getRandomNumberWithMin fuel min max st = .returned v st1) :
    (∃ w : Int, min ≤ w ∧ w < max ∧ v = toUInt32 w) ∧
      (0 ≤ min → min ≤ (v : Int) ∧ (v : Int) < max) := by
  have hrep1 : max - min ≤ INT_MAX := by unfold INT_MAX; omega
  have hmin1 : -2147483648 ≤ min := hmin
  have hmax1 : max ≤ 2147483647 := hmax
  obtain ⟨n, _, hacc, _, _⟩ := returned_inv fuel min max st st1 v h
  have hd := nthDraw_nonneg st n
  generalize nthDraw st n = d at hacc hd
  rw [attempt_of_pos_range min max d hmin hmax hlt hrep1 hd] at hacc
  by_cases h1 : d < RAND_MAX - RAND_MAX % (max - min)
  · have hq := quotient_lt_range (max - min) d (by omega) (by omega) hd h1
    rw [if_pos h1] at hacc
    generalize d / (RAND_MAX / (max - min)) = q at hacc hq
    have hw1 : min ≤ min + q := by omega
    have hw2 : min + q < max := by omega
    have hnn : 0 ≤ min → 0 ≤ min + q ∧ min + q ≤ 2147483647 := by omega
    simp only [Attempt.accept.injEq] at hacc
    refine ⟨⟨min + q, hw1, hw2, hacc.symm⟩, fun h0 => ?_⟩
    rw [← hacc, toUInt32_of_nonneg _ (hnn h0).1 (hnn h0).2]
    exact ⟨hw1, hw2⟩
  · rw [if_neg h1] at hacc
    exact absurd hacc (by simp)

/-- C1, witness: `getRandomNumberWithMin 3 10` on a generator whose next draw is `0`
returns `3`. -/
theorem getRandomNumberWithMin_returned_in_range_witness :
    (∃ w : Int, (3 : Int) ≤ w ∧ w < 10 ∧ (3 : Nat) = toUInt32 w) ∧
      ((0 : Int) ≤ 3 → (3 : Int) ≤ ((3 : Nat) : Int) ∧ ((3 : Nat) : Int) < 10) :=
  getRandomNumberWithMin_returned_in_range 3 10 (by decide) (by decide) (by decide)
    (by decide) 1 { mt := 0, mti := 0 } { mt := 0, mti := 1 } 3 (by decide)

/-! ## C7 and C8: the first accepted draw, and absence of undefined behaviour -/

theorem toInt32_toUInt32 (w : Int) (h1 : INT_MIN ≤ w) (h2 : w ≤ INT_MAX) :
    toInt32 ((toUInt32 w : Nat) : Int) = w := by
  unfold INT_MIN at h1
  unfold INT_MAX at h2
  unfold toInt32 toUInt32
  omega

/-- C7, counterexample: on the range `[-5, 0)`, from a generator whose first draw is
`0`, the first draw is accepted (`n = 0`), yet the call returns the `unsigned int`
4294967291 and not `min + d_0 / bucket = -5`. -/
theorem getRandomNumberWithMin_first_accepted_counterexample :
    (-5 : Int) < 0 ∧ (0 : Int) - -5 ≤ 2 ^ 31 - 1 ∧
      nthDraw { mt := 0, mti := 0 } 0 < RAND_MAX - RAND_MAX % (0 - -5) ∧
      -5 + nthDraw { mt := 0, mti := 0 } 0 / (RAND_MAX / (0 - -5)) = -5 ∧
      getRandomNumberWithMin 1 (-5) 0 { mt := 0, mti := 0 }
        = .returned 4294967291 { mt := 0, mti := 1 } ∧
      ((4294967291 : Nat) : Int) ≠ -5 := by
  decide

/-- C7, amended: for 32-bit `min < max` with `max - min ≤ 2^31 - 1`, if `n` is the
least index whose draw is below `RAND_MAX - RAND_MAX % (max - min)`, then with any
fuel above `n` the call terminates, returns `(min + d_n / bucket) mod 2^32` (the
`unsigned int` conversion of `min + d_n / bucket`: it is that value itself whenever
`min ≥ 0`, and read back as an `int` it is always that value), leaves the generator
in the state reached after exactly `n + 1` draws, and every earlier draw was
discarded by a retry. -/
theorem getRandomNumberWithMin_first_accepted (min max : Int)
    (hmin : INT_MIN ≤ min) (hmax : max ≤ INT_MAX) (hlt : min < max)
    (hrep : max - min ≤ 2 ^ 31 - 1) (st : MTState) (n : Nat)
    (hacc : nthDraw st n < RAND_MAX - RAND_MAX % (max - min))
    (hleast : ∀ i, i < n → ¬ nthDraw st i < RAND_MAX - RAND_MAX % (max - min))
    (fuel : Nat) (hfuel : n < fuel) :
    getRandomNumberWithMin fuel min max st
        = .returned (toUInt32 (min + nthDraw st n / (RAND_MAX / (max - min))))
            (afterDraws st (n + 1)) ∧
      ((toUInt32 (min + nthDraw st n / (RAND_MAX / (max - min))) : Nat) : Int)
        = (min + nthDraw st n / (RAND_MAX / (max - min))) % 2 ^ 32 ∧
      (0 ≤ min →
        ((toUInt32 (min + nthDraw st n / (RAND_MAX / (max - min))) : Nat) : Int)
          = min + nthDraw st n / (RAND_MAX / (max - min))) ∧
      toInt32 ((toUInt32 (min + nthDraw st n / (RAND_MAX / (max - min))) : Nat) : Int)
        = min + nthDraw st n / (RAND_MAX / (max - min)) ∧
      ∀ i, i < n → attempt min max (nthDraw st i) = .retry := by
  have hrep1 : max - min ≤ INT_MAX := by unfold INT_MAX; omega
  have hmin1 : -2147483648 ≤ min := hmin
  have hmax1 : max ≤ 2147483647 := hmax
  have hret : ∀ i, i < n → attempt min max (nthDraw st i) = .retry := by
    intro i hi
    rw [attempt_of_pos_range min max _ hmin hmax hlt hrep1 (nthDraw_nonneg st i),
      if_neg (hleast i hi)]
  have hrun := returned_of_first_accept min max st n
    (toUInt32 (min + nthDraw st n / (RAND_MAX / (max - min))))
    (by rw [attempt_of_pos_range min max _ hmin hmax hlt hrep1 (nthDraw_nonneg st n),
      if_pos hacc]) hret fuel hfuel
  have hd := nthDraw_nonneg st n
  generalize nthDraw st n = d at hacc hd hrun ⊢
  have hq := quotient_lt_range (max - min) d (by omega) (by omega) hd hacc
  refine ⟨hrun, toUInt32_cast _, fun h0 => ?_, ?_, hret⟩
  · exact toUInt32_of_nonneg _ (by omega) (by omega)
  · apply toInt32_toUInt32
    · unfold INT_MIN; omega
    · unfold INT_MAX; omega

/-- C7, witness: on the range `[3, 10)`, from a generator whose first draw is
`2^31 - 1` and whose second draw is `0`, the first draw is discarded by a retry and
the second is accepted. -/
theorem getRandomNumberWithMin_first_accepted_witness :
    getRandomNumberWithMin 2 3 10 { mt := 316513203, mti := 0 }
        = .returned (toUInt32 (3 + nthDraw { mt := 316513203, mti := 0 } 1
              / (RAND_MAX / (10 - 3))))
            (afterDraws { mt := 316513203, mti := 0 } (1 + 1)) ∧
      ∀ i, i < 1 → attempt 3 10 (nthDraw { mt := 316513203, mti := 0 } i) = .retry :=
  ⟨(getRandomNumberWithMin_first_accepted 3 10 (by decide) (by decide) (by decide)
      (by decide) { mt := 316513203, mti := 0 } 1 (by decide)
      (fun i hi => by
        have : i = 0 := by omega
        subst this
        decide) 2 (by decide)).1,
    (getRandomNumberWithMin_first_accepted 3 10 (by decide) (by decide) (by decide)
      (by decide) { mt := 316513203, mti := 0 } 1 (by decide)
      (fun i hi => by
        have : i = 0 := by omega
        subst this
        decide) 2 (by decide)).2.2.2.2⟩

/-- C8: for 32-bit `min < max` whose difference is representable as an `int`, the
range is at least 1, the bucket is at least 1, no draw in `0 .. RAND_MAX` makes the
body of `getRandomNumberWithMin` undefined, `min + base / bucket` stays inside the
`int` range whenever it is evaluated, and no call reaches undefined behaviour. -/
theorem getRandomNumberWithMin_no_undefined (min max : Int)
    (hmin : INT_MIN ≤ min) (hmax : max ≤ INT_MAX) (hlt : min < max)
    (hrep : max - min ≤ INT_MAX) :
    1 ≤ max - min ∧ 1 ≤ RAND_MAX.tdiv (max - min) ∧
      (∀ base : Int, 0 ≤ base → base ≤ RAND_MAX →
        (∀ ub, attempt min max base ≠ .undefined ub) ∧
        (base < RAND_MAX - RAND_MAX.tmod (max - min) →
          INT_MIN ≤ min + base.tdiv (RAND_MAX.tdiv (max - min)) ∧
          min + base.tdiv (RAND_MAX.tdiv (max - min)) ≤ INT_MAX)) ∧
      ∀ (fuel : Nat) (st : MTState) (ub : Undefined),
        getRandomNumberWithMin fuel min max st ≠ .undefined ub := by
  have hr1 : 1 ≤ max - min := by omega
  have hrep1 : max - min ≤ 2147483647 := hrep
  have hmod : RAND_MAX.tmod (max - min) = RAND_MAX % (max - min) :=
    Int.tmod_eq_emod (by decide) (by omega)
  have hdiv : RAND_MAX.tdiv (max - min) = RAND_MAX / (max - min) :=
    Int.tdiv_eq_ediv (by decide) (by omega)
  have hbk := bucket_pos (max - min) hr1 hrep1
  have hbody : ∀ base : Int, 0 ≤ base → ∀ ub, attempt min max base ≠ .undefined ub := by
    intro base hb0 ub
    rw [attempt_of_pos_range min max base hmin hmax hlt hrep hb0]
    split <;> simp
  refine ⟨hr1, by rw [hdiv]; exact hbk, ?_, ?_⟩
  · intro base hb0 _
    refine ⟨hbody base hb0, fun hacc => ?_⟩
    rw [hmod] at hacc
    have hq := quotient_lt_range (max - min) base hr1 hrep1 hb0 hacc
    rw [hdiv, Int.tdiv_eq_ediv hb0 (by omega)]
    unfold INT_MIN at hmin ⊢
    unfold INT_MAX at hmax ⊢
    constructor <;> omega
  · intro fuel st ub h
    obtain ⟨n, _, hn⟩ := undefined_inv fuel min max st ub h
    exact hbody _ (nthDraw_nonneg st n) ub hn

/-- C8, witness: the range `[3, 10)`. -/
theorem getRandomNumberWithMin_no_undefined_witness :
    1 ≤ (10 : Int) - 3 ∧ 1 ≤ RAND_MAX.tdiv (10 - 3) ∧
      (∀ base : Int, 0 ≤ base → base ≤ RAND_MAX →
        (∀ ub, attempt 3 10 base ≠ .undefined ub) ∧
        (base < RAND_MAX - RAND_MAX.tmod (10 - 3) →
          INT_MIN ≤ 3 + base.tdiv (RAND_MAX.tdiv (10 - 3)) ∧
          3 + base.tdiv (RAND_MAX.tdiv (10 - 3)) ≤ INT_MAX)) ∧
      ∀ (fuel : Nat) (st : MTState) (ub : Undefined),
        getRandomNumberWithMin fuel 3 10 st ≠ .undefined ub :=
  getRandomNumberWithMin_no_undefined 3 10 (by decide) (by decide) (by decide) (by decide)

/-! ## C6: every value of the range has the same number of accepted draws -/

theorem toUInt32_inj (a b : Int) (ha1 : INT_MIN ≤ a) (ha2 : a ≤ INT_MAX)
    (hb1 : INT_MIN ≤ b) (hb2 : b ≤ INT_MAX) (h : toUInt32 a = toUInt32 b) : a = b := by
  unfold INT_MIN at ha1 hb1
  unfold INT_MAX at ha2 hb2
  unfold toUInt32 at h
  omega

theorem ediv_eq_of_bounds (b B q : Int) (hB : 0 < B) (h1 : q * B ≤ b)
    (h2 : b < (q + 1) * B) : b / B = q := by
  have h3 := (Int.le_ediv_iff_mul_le hB).2 h1
  have h4 := (Int.ediv_lt_iff_lt_mul hB).2 h2
  omega

theorem attempt_accept_value_iff (min max : Int)
    (hmin : INT_MIN ≤ min) (hmax : max ≤ INT_MAX) (hlt : min < max)
    (hrep : max - min ≤ INT_MAX) (v : Int) (hv1 : min ≤ v) (hv2 : v < max) (b : Nat) :
    attempt min max (b : Int) = .accept (toUInt32 v) ↔
      ((v - min) * (RAND_MAX / (max - min))).toNat ≤ b ∧
        b < ((v - min) * (RAND_MAX / (max - min))).toNat + (RAND_MAX / (max - min)).toNat := by
  have hr1 : 1 ≤ max - min := by omega
  have hrep1 : max - min ≤ 2147483647 := hrep
  have hbk := bucket_pos (max - min) hr1 hrep1
  have hb0 : (0 : Int) ≤ (b : Int) := by omega
  rw [attempt_of_pos_range min max b hmin hmax hlt hrep hb0]
  have hmul := accepted_eq_mul (max - min)
  generalize hB : RAND_MAX / (max - min) = B at *
  have hvB : 0 ≤ (v - min) * B := Int.mul_nonneg (by omega) (by omega)
  by_cases hacc : (b : Int) < RAND_MAX - RAND_MAX % (max - min)
  · rw [if_pos hacc]
    have hq := quotient_lt_range (max - min) b hr1 hrep1 hb0 hacc
    rw [hB] at hq
    simp only [Attempt.accept.injEq]
    unfold INT_MIN at hmin
    unfold INT_MAX at hmax
    constructor
    · intro h
      have heq : min + (b : Int) / B = v :=
        toUInt32_inj _ _ (by unfold INT_MIN; omega) (by unfold INT_MAX; omega)
          (by unfold INT_MIN; omega) (by unfold INT_MAX; omega) h
      have hd : (b : Int) / B = v - min := by omega
      have h1 := Int.emod_add_ediv (b : Int) B
      have h2 := Int.emod_nonneg (b : Int) (show B ≠ 0 by omega)
      have h3 := Int.emod_lt_of_pos (b : Int) (show 0 < B by omega)
      rw [hd] at h1
      have h4 : B * (v - min) = (v - min) * B := Int.mul_comm _ _
      constructor <;> omega
    · intro ⟨h1, h2⟩
      have h5 : (v - min + 1) * B = (v - min) * B + B := by ring
      have hd : (b : Int) / B = v - min :=
        ediv_eq_of_bounds b B (v - min) (by omega) (by omega) (by omega)
      rw [hd]
      congr 1
      omega
  · rw [if_neg hacc]
    have h5 : (v - min + 1) * B = (v - min) * B + B := by ring
    have h6 : (v - min + 1) * B ≤ (max - min) * B :=
      Int.mul_le_mul_of_nonneg_right (by omega) (by omega)
    have h7 : (max - min) * B = RAND_MAX - RAND_MAX % (max - min) := by rw [hmul]
    constructor
    · intro h
      exact absurd h (by simp)
    · intro ⟨_, h2⟩
      omega

/-- C6: for 32-bit `min < max` with `max - min ≤ 2^31 - 1`, every value `v` of
`[min, max)` is what `getRandomNumberWithMin` returns (through its `unsigned int`
return type, that is as `toUInt32 v`, which is `v` itself when `v ≥ 0`) for exactly
`bucket` of the `2^31` base values `0 .. 2^31 - 1`, and exactly `remainder + 1` base
values, among them `2^31 - 1`, cause a retry. -/
theorem attempt_bucket_count (min max : Int)
    (hmin : INT_MIN ≤ min) (hmax : max ≤ INT_MAX) (hlt : min < max)
    (hrep : max - min ≤ 2 ^ 31 - 1) :
    (∀ v : Int, min ≤ v → v < max →
      ((Finset.range (2 ^ 31)).filter
        (fun b : Nat => attempt min max (b : Int) = .accept (toUInt32 v))).card
        = (RAND_MAX / (max - min)).toNat) ∧
      ((Finset.range (2 ^ 31)).filter
        (fun b : Nat => attempt min max (b : Int) = .retry)).card
        = (RAND_MAX % (max - min)).toNat + 1 ∧
      attempt min max (2 ^ 31 - 1) = .retry := by
  have hrep1 : max - min ≤ INT_MAX := by unfold INT_MAX; omega
  have hr1 : 1 ≤ max - min := by omega
  have hbk := bucket_pos (max - min) hr1 (by omega)
  have hmul := accepted_eq_mul (max - min)
  have hrem0 : 0 ≤ RAND_MAX % (max - min) := Int.emod_nonneg _ (by omega)
  have hremlt : RAND_MAX % (max - min) < max - min := Int.emod_lt_of_pos _ (by omega)
  have hR : RAND_MAX = 2147483647 := rfl
  refine ⟨fun v hv1 hv2 => ?_, ?_, ?_⟩
  · have hset : (Finset.range (2 ^ 31)).filter
          (fun b : Nat => attempt min max (b : Int) = .accept (toUInt32 v))
        = Finset.Ico ((v - min) * (RAND_MAX / (max - min))).toNat
            (((v - min) * (RAND_MAX / (max - min))).toNat + (RAND_MAX / (max - min)).toNat) := by
      ext b
      rw [Finset.mem_filter, Finset.mem_range, Finset.mem_Ico,
        attempt_accept_value_iff min max hmin hmax hlt hrep1 v hv1 hv2 b]
      constructor
      · exact fun h => h.2
      · intro h
        refine ⟨?_, h⟩
        have h5 : (v - min + 1) * (RAND_MAX / (max - min))
            = (v - min) * (RAND_MAX / (max - min)) + RAND_MAX / (max - min) := by ring
        have h6 : (v - min + 1) * (RAND_MAX / (max - min))
            ≤ (max - min) * (RAND_MAX / (max - min)) :=
          Int.mul_le_mul_of_nonneg_right (by omega) (by omega)
        have h7 : 0 ≤ (v - min) * (RAND_MAX / (max - min)) :=
          Int.mul_nonneg (by omega) (by omega)
        norm_num
        omega
    rw [hset, Nat.card_Ico]
    omega
  · have hset : (Finset.range (2 ^ 31)).filter
          (fun b : Nat => attempt min max (b : Int) = .retry)
        = Finset.Ico (RAND_MAX - RAND_MAX % (max - min)).toNat (2 ^ 31) := by
      ext b
      rw [Finset.mem_filter, Finset.mem_range, Finset.mem_Ico,
        attempt_of_pos_range min max b hmin hmax hlt hrep1 (by omega)]
      by_cases hacc : (b : Int) < RAND_MAX - RAND_MAX % (max - min)
      · rw [if_pos hacc]
        simp only [reduceCtorEq, and_false, false_iff, not_and, not_lt]
        intro h
        omega
      · rw [if_neg hacc]
        simp only [and_true]
        constructor
        · intro h
          exact ⟨by omega, h⟩
        · exact fun h => h.2
    rw [hset, Nat.card_Ico]
    norm_num
    omega
  · rw [attempt_of_pos_range min max _ hmin hmax hlt hrep1 (by norm_num)]
    rw [if_neg]
    norm_num
    omega

/-- C6, witness: the range `[3, 10)`. -/
theorem attempt_bucket_count_witness :
    (∀ v : Int, 3 ≤ v → v < 10 →
      ((Finset.range (2 ^ 31)).filter
        (fun b : Nat => attempt 3 10 (b : Int) = .accept (toUInt32 v))).card
        = (RAND_MAX / (10 - 3)).toNat) ∧
      ((Finset.range (2 ^ 31)).filter
        (fun b : Nat => attempt 3 10 (b : Int) = .retry)).card
        = (RAND_MAX % (10 - 3)).toNat + 1 ∧
      attempt 3 10 (2 ^ 31 - 1) = .retry :=
  attempt_bucket_count 3 10 (by decide) (by decide) (by decide) (by decide)

/-! ## C2: empty and inverted ranges -/

/-- C2, counterexample: on a generator whose next draw is `0`,
`getRandomNumberWithMin 10 3` returns the value 10, and `getRandomNumberWithMin 5 5`
divides by zero; neither call reports an error. -/
theorem getRandomNumberWithMin_invalid_range_counterexample :
    getRandomNumberWithMin 1 10 3 { mt := 0, mti := 0 }
        = .returned 10 { mt := 0, mti := 1 } ∧
      getRandomNumberWithMin 1 5 5 { mt := 0, mti := 0 }
        = .undefined .divisionByZero := by
  decide

theorem attempt_inverted_no_division_by_zero (min max base : Int) (hlt : max < min)
    (hb0 : 0 ≤ base) : attempt min max base ≠ .undefined .divisionByZero := by
  intro h
  by_cases h1 : RAND_MAX = base
  · simp [attempt, h1] at h
  by_cases h2 : inInt32 (max - min) = true
  swap
  · simp [attempt, h1, h2] at h
  have h3 : max - min ≠ 0 := by omega
  by_cases h4 : base < RAND_MAX - RAND_MAX.tmod (max - min)
  swap
  · simp [attempt, h1, h2, h3, h4] at h
  have h5 : RAND_MAX.tdiv (max - min) ≠ 0 := by
    intro h0
    have h6 := Int.tmod_add_tdiv RAND_MAX (max - min)
    rw [h0] at h6
    omega
  by_cases h6 : inInt32 (min + base.tdiv (RAND_MAX.tdiv (max - min))) = true
  · simp [attempt, h1, h2, h3, h4, h5, h6] at h
  · simp [attempt, h1, h2, h3, h4, h5, h6] at h

theorem attempt_empty_never_accepts (min base : Int) (v : Nat) :
    attempt min min base ≠ .accept v := by
  intro h
  have := (attempt_accept_inv min min base v h).2.1
  omega

/-- C2, amended: `getRandomNumberWithMin` has no error result.  For `max < min` no
call divides by zero, whatever the draws; for `max = min` no call returns a
value. -/
theorem getRandomNumberWithMin_invalid_range (min max : Int) (fuel : Nat) (st : MTState) :
    (max < min → getRandomNumberWithMin fuel min max st ≠ .undefined .divisionByZero) ∧
      (max = min → ∀ (v : Nat) (st1 : MTState),
        getRandomNumberWithMin fuel min max st ≠ .returned v st1) := by
  constructor
  · intro hlt h
    obtain ⟨n, _, hn⟩ := undefined_inv fuel min max st _ h
    exact attempt_inverted_no_division_by_zero min max _ hlt (nthDraw_nonneg st n) hn
  · intro heq v st1 h
    subst heq
    obtain ⟨n, _, hn, _⟩ := returned_inv fuel max max st st1 v h
    exact attempt_empty_never_accepts max _ v hn

/-- C2, witness: on the inverted range `(10, 3)` the call does not divide by zero,
and on the empty range `(5, 5)` it returns no value. -/
theorem getRandomNumberWithMin_invalid_range_witness :
    getRandomNumberWithMin 1 10 3 { mt := 0, mti := 0 } ≠ .undefined .divisionByZero ∧
      ∀ (v : Nat) (st1 : MTState),
        getRandomNumberWithMin 1 5 5 { mt := 0, mti := 0 } ≠ .returned v st1 :=
  ⟨(getRandomNumberWithMin_invalid_range 10 3 1 { mt := 0, mti := 0 }).1 (by decide),
    (getRandomNumberWithMin_invalid_range 5 5 1 { mt := 0, mti := 0 }).2 rfl⟩

/-! ## C3: the seed buffer of `seedRandomWithArray` -/

theorem seedRandomWithArray_loop_zero (numbers : Nat → Nat) (i counter : Nat)
    (seeds : Nat → Nat) :
    seedRandomWithArray_loop numbers 0 i counter seeds = .ok (seeds, counter) := rfl

theorem seedRandomWithArray_loop_succ (numbers : Nat → Nat) (k i counter : Nat)
    (seeds : Nat → Nat) :
    seedRandomWithArray_loop numbers (k + 1) i counter seeds =
      if kMaxNumberSeeds ≤ counter then .error (.storePastBuffer counter)
      else seedRandomWithArray_loop numbers k (i + 1) (counter + 1)
        (Function.update seeds counter (numbers i % 2 ^ 32)) := rfl

theorem seedRandomWithArray_loop_ok (numbers : Nat → Nat) (k i counter : Nat)
    (seeds : Nat → Nat) (h : counter + k ≤ kMaxNumberSeeds) :
    seedRandomWithArray_loop numbers k i counter seeds =
      .ok (fun j => if counter ≤ j ∧ j < counter + k
        then numbers (i + (j - counter)) % 2 ^ 32 else seeds j, counter + k) := by
  induction k generalizing i counter seeds with
  | zero =>
    rw [seedRandomWithArray_loop_zero]
    congr 2
    funext j
    rw [if_neg (by omega)]
  | succ k ih =>
    rw [seedRandomWithArray_loop_succ, if_neg (by omega), ih _ _ _ (by omega)]
    congr 2
    · funext j
      by_cases h1 : counter + 1 ≤ j ∧ j < counter + 1 + k
      · rw [if_pos h1, if_pos (by omega)]
        congr 2
        omega
      · rw [if_neg h1]
        by_cases h2 : j = counter
        · subst h2
          rw [Function.update_same, if_pos (by omega)]
          congr 2
          omega
        · rw [Function.update_noteq h2, if_neg (by omega)]
    · omega

theorem seedRandomWithArray_loop_overflow (numbers : Nat → Nat) (k i counter : Nat)
    (seeds : Nat → Nat) (h1 : counter ≤ kMaxNumberSeeds) (h2 : kMaxNumberSeeds < counter + k) :
    seedRandomWithArray_loop numbers k i counter seeds
      = .error (.storePastBuffer kMaxNumberSeeds) := by
  induction k generalizing i counter seeds with
  | zero => omega
  | succ k ih =>
    rw [seedRandomWithArray_loop_succ]
    by_cases hc : kMaxNumberSeeds ≤ counter
    · rw [if_pos hc]
      have : counter = kMaxNumberSeeds := by omega
      rw [this]
    · rw [if_neg hc]
      exact ih _ _ _ (by omega) (by omega)

/-- C3, counterexample: with `count = 625` the loop of `seedRandomWithArray` reaches
its 625th iteration and stores to `seeds[624]`, one slot past the 624-entry buffer;
nothing in the function checks `count` or reports an error. -/
theorem seedRandomWithArray_overflow_counterexample :
    seedRandomWithArray (fun _ => 0) 625 (fun _ => 0) { mt := 0, mti := 0 }
      = .undefined (.storePastBuffer 624) := by
  unfold seedRandomWithArray
  rw [seedRandomWithArray_loop_overflow (fun _ => 0) (625 : Int).toNat 0 0 (fun _ => 0)
    (by decide) (by decide)]
  rfl

theorem seedRandomWithArray_of_le (numbers : Nat → Nat) (count : Int)
    (frame : Nat → Nat) (st : MTState) (h : count ≤ 624) :
    seedRandomWithArray numbers count frame st
      = .returned () (init_by_array
          (fun j => if j < count.toNat then numbers j % 2 ^ 32 else frame j)
          (max count 0) st) := by
  have hk : 0 + count.toNat ≤ kMaxNumberSeeds := by unfold kMaxNumberSeeds; omega
  have hseeds : (fun j => if 0 ≤ j ∧ j < 0 + count.toNat
        then numbers (0 + (j - 0)) % 2 ^ 32 else frame j)
      = (fun j => if j < count.toNat then numbers j % 2 ^ 32 else frame j) := by
    funext j
    simp
  have hlen : ((0 + count.toNat : Nat) : Int) = max count 0 := by omega
  unfold seedRandomWithArray
  rw [seedRandomWithArray_loop_ok numbers count.toNat 0 0 frame hk]
  simp only [hseeds, hlen]

/-- C3, amended: `seedRandomWithArray` has no `InvalidArgument` result; `count ≤ 624`
is a precondition.  For every `count ≤ 624` it stores exactly `seeds[i] = numbers[i]`
for `i < count`, leaves every other slot (in particular everything past index 623)
untouched, and reseeds the generator by `init_by_array` with key length
`max(count, 0)`. -/
theorem seedRandomWithArray_within_capacity (numbers : Nat → Nat) (count : Int)
    (frame : Nat → Nat) (st : MTState) (h : count ≤ 624) :
    ∃ seeds : Nat → Nat,
      seedRandomWithArray numbers count frame st
        = .returned () (init_by_array seeds (max count 0) st) ∧
      (∀ j, j < count.toNat → seeds j = numbers j % 2 ^ 32) ∧
      (∀ j, count.toNat ≤ j → seeds j = frame j) := by
  refine ⟨fun j => if j < count.toNat then numbers j % 2 ^ 32 else frame j,
    seedRandomWithArray_of_le numbers count frame st h, ?_, ?_⟩
  · intro j hj
    simp only
    rw [if_pos hj]
  · intro j hj
    simp only
    rw [if_neg (by omega)]

/-- C3, witness: `count = 624`, the largest count the buffer holds. -/
theorem seedRandomWithArray_within_capacity_witness :
    ∃ seeds : Nat → Nat,
      seedRandomWithArray (fun i => i) 624 (fun _ => 7) { mt := 0, mti := 0 }
        = .returned () (init_by_array seeds (max 624 0) { mt := 0, mti := 0 }) ∧
      (∀ j, j < (624 : Int).toNat → seeds j = (fun i => i) j % 2 ^ 32) ∧
      (∀ j, (624 : Int).toNat ≤ j → seeds j = (fun _ => 7) j) :=
  seedRandomWithArray_within_capacity (fun i => i) 624 (fun _ => 7) { mt := 0, mti := 0 }
    (by decide)

/-! ## C4 and C5: `getRandomFloat` -/

theorem roundHalfEven_intCast (n : Int) : roundHalfEven (n : ℚ) = n := by
  unfold roundHalfEven
  simp

theorem roundToFloat_dyadic (m : Nat) (z : Int) (hm : m < 2 ^ 24) :
    roundToFloat ((m : ℚ) * (2 : ℚ) ^ z) = (m : ℚ) * (2 : ℚ) ^ z := by
  rcases Nat.eq_zero_or_pos m with h0 | h0
  · subst h0
    simp [roundToFloat]
  have h2 : (0 : ℚ) < (2 : ℚ) ^ z := zpow_pos (by norm_num) z
  have hq : (0 : ℚ) < (m : ℚ) * (2 : ℚ) ^ z := mul_pos (by exact_mod_cast h0) h2
  have hlt : (m : ℚ) * (2 : ℚ) ^ z < ((2 : Nat) : ℚ) ^ (24 + z) := by
    rw [zpow_add₀ (by norm_num)]
    have : (m : ℚ) < ((2 : Nat) : ℚ) ^ (24 : Int) := by
      have h4 : (m : ℚ) < ((2 ^ 24 : Nat) : ℚ) := by exact_mod_cast hm
      have h5 : ((2 : Nat) : ℚ) ^ (24 : Int) = ((2 ^ 24 : Nat) : ℚ) := by norm_num
      rw [h5]
      exact h4
    have h2' : (0 : ℚ) < ((2 : Nat) : ℚ) ^ z := by simpa using h2
    have := mul_lt_mul_of_pos_right this h2'
    simpa using this
  have he : Int.log 2 ((m : ℚ) * (2 : ℚ) ^ z) < 24 + z :=
    (Int.lt_zpow_iff_log_lt (by norm_num) hq).1 hlt
  unfold roundToFloat
  rw [if_neg (ne_of_gt hq), abs_of_pos hq]
  generalize Int.log 2 ((m : ℚ) * (2 : ℚ) ^ z) = e at he
  obtain ⟨d, hd⟩ : ∃ d : Nat, z = e - 23 + d := ⟨(z - (e - 23)).toNat, by omega⟩
  have hdiv : (m : ℚ) * (2 : ℚ) ^ z / (2 : ℚ) ^ (e - 23) = ((m * 2 ^ d : Nat) : Int) := by
    rw [hd, zpow_add₀ (by norm_num)]
    have h3 : (2 : ℚ) ^ (e - 23) ≠ 0 := zpow_ne_zero _ (by norm_num)
    field_simp
    ring
  simp only [hdiv, roundHalfEven_intCast]
  rw [hd, zpow_add₀ (by norm_num), zpow_natCast]
  push_cast
  ring

theorem roundToFloat_natCast (m : Nat) (hm : m < 2 ^ 24) : roundToFloat (m : ℚ) = m := by
  have := roundToFloat_dyadic m 0 hm
  simpa using this

theorem roundToFloat_two_pow_24 : roundToFloat (16777216 : ℚ) = 16777216 := by
  have := roundToFloat_dyadic 1 24 (by norm_num)
  norm_num at this
  exact this

theorem getRandomFloat_eq (st : MTState) :
    getRandomFloat st
      = ((((genrand_int32 st).1 / 2 ^ 8 : Nat) : ℚ) / 2 ^ 24, (genrand_int32 st).2) := by
  have hu := genrand_int32_lt st
  have hk : (genrand_int32 st).1 / 2 ^ 8 < 2 ^ 24 := by omega
  have hk2 : ((genrand_int32 st).1 >>> (32 - 24)) % 2 ^ 32 = (genrand_int32 st).1 / 2 ^ 8 := by
    rw [Nat.shiftRight_eq_div_pow]
    omega
  unfold getRandomFloat
  simp only [hk2]
  have h0 : (1 <<< 24 : Nat) = 16777216 := by decide
  have h1 : (((1 <<< 24 : Nat) : Int) : ℚ) = 16777216 := by rw [h0]; norm_num
  rw [h1, roundToFloat_two_pow_24, roundToFloat_natCast _ hk]
  have h2 := roundToFloat_dyadic ((genrand_int32 st).1 / 2 ^ 8) (-24) hk
  have h3 : (((genrand_int32 st).1 / 2 ^ 8 : Nat) : ℚ) * (2 : ℚ) ^ (-24 : Int)
      = (((genrand_int32 st).1 / 2 ^ 8 : Nat) : ℚ) / 16777216 := by
    rw [zpow_neg, div_eq_mul_inv]
    norm_num
  rw [h3] at h2
  rw [h2]
  norm_num

/-- C4: for every generator state, hence for every 32-bit word the draw can
deliver, the value returned by `getRandomFloat` is at least 0 and strictly below
1. -/
theorem getRandomFloat_unit_interval (st : MTState) :
    0 ≤ (getRandomFloat st).1 ∧ (getRandomFloat st).1 < 1 := by
  have hu := genrand_int32_lt st
  have hk : (genrand_int32 st).1 / 2 ^ 8 < 2 ^ 24 := by omega
  rw [getRandomFloat_eq]
  simp only
  constructor
  · positivity
  · rw [div_lt_one (by norm_num)]
    exact_mod_cast hk

/-- C5: `getRandomFloat` takes exactly one 32-bit draw `u` from the generator and
returns `floor(u / 2^8) / 2^24`, leaving the generator in the state that one draw
leaves it in; two draws with the same top 24 bits give the same result. -/
theorem getRandomFloat_top_24_bits (st : MTState) :
    getRandomFloat st
        = ((((genrand_int32 st).1 / 2 ^ 8 : Nat) : ℚ) / 2 ^ 24, (genrand_int32 st).2) ∧
      ∀ st2 : MTState, (genrand_int32 st).1 / 2 ^ 8 = (genrand_int32 st2).1 / 2 ^ 8 →
        (getRandomFloat st).1 = (getRandomFloat st2).1 := by
  refine ⟨getRandomFloat_eq st, fun st2 h => ?_⟩
  rw [getRandomFloat_eq, getRandomFloat_eq]
  simp only [h]

/-- C5, witness: the draws `0` and `255` differ only in their low 8 bits and give
the same result. -/
theorem getRandomFloat_top_24_bits_witness :
    (genrand_int32 { mt := 0, mti := 0 }).1 = 0 ∧
      (genrand_int32 { mt := 2237578664, mti := 0 }).1 = 255 ∧
      (getRandomFloat { mt := 0, mti := 0 }).1
        = (getRandomFloat { mt := 2237578664, mti := 0 }).1 :=
  ⟨by decide, by decide,
    (getRandomFloat_top_24_bits { mt := 0, mti := 0 }).2 { mt := 2237578664, mti := 0 }
      (by decide)⟩

/-! ## C10: `getRandomNumber` -/

/-- C10: `getRandomNumber` makes exactly one generator draw and returns the value of
`genrand_int31` unchanged, which is the 32-bit output shifted right by one bit; the
result lies in `0 .. 2^31 - 1` for every generator state. -/
theorem getRandomNumber_is_genrand_int31 (st : MTState) :
    getRandomNumber st = (((genrand_int31 st).1 : Int), (genrand_int31 st).2) ∧
      genrand_int31 st = ((genrand_int32 st).1 >>> 1, (genrand_int32 st).2) ∧
      0 ≤ (getRandomNumber st).1 ∧ (getRandomNumber st).1 ≤ 2 ^ 31 - 1 := by
  refine ⟨?_, rfl, getRandomNumber_nonneg st, ?_⟩
  · exact Prod.ext (getRandomNumber_fst st) rfl
  · have := getRandomNumber_le st
    unfold RAND_MAX at this
    omega

/-! ## C9: what the seeding depends on -/

/-- The canonical reference vector: after `init_by_array` with the key
`{0x123, 0x234, 0x345, 0x456}` the first two outputs of `genrand_int32` are
1067595299 and 955945823. -/
theorem genrand_int32_reference_vector :
    (genrand_int32 (init_by_array
        (fun j => if j = 0 then 0x123 else if j = 1 then 0x234 else if j = 2 then 0x345
          else 0x456) 4 { mt := 0, mti := 0 })).1 = 1067595299 ∧
      (genrand_int32 (genrand_int32 (init_by_array
        (fun j => if j = 0 then 0x123 else if j = 1 then 0x234 else if j = 2 then 0x345
          else 0x456) 4 { mt := 0, mti := 0 })).2).1 = 955945823 := by
  decide!

theorem init_by_array_pass1_succ (init_key : Nat → Nat) (key_length : Int)
    (k mt i j : Nat) :
    init_by_array_pass1 init_key key_length (k + 1) mt i j =
      init_by_array_pass1 init_key key_length k
        (wrapIndex (setWord mt i
          ((word mt i ^^^ ((word mt (i - 1) ^^^ (word mt (i - 1) >>> 30)) * 1664525))
            + init_key j + j)) (i + 1)).1
        (wrapIndex (setWord mt i
          ((word mt i ^^^ ((word mt (i - 1) ^^^ (word mt (i - 1) >>> 30)) * 1664525))
            + init_key j + j)) (i + 1)).2
        (if ((j + 1 : Nat) : Int) ≥ key_length then 0 else j + 1) := rfl

theorem init_by_array_pass1_congr (key1 key2 : Nat → Nat) (key_length : Int)
    (hagree : ∀ j : Nat, (j : Int) < key_length → key1 j = key2 j)
    (k mt i j : Nat) (hj : (j : Int) < key_length) :
    init_by_array_pass1 key1 key_length k mt i j
      = init_by_array_pass1 key2 key_length k mt i j := by
  induction k generalizing mt i j with
  | zero => rfl
  | succ k ih =>
    rw [init_by_array_pass1_succ, init_by_array_pass1_succ, hagree j hj]
    apply ih
    split <;> omega

theorem init_by_array_congr (key1 key2 : Nat → Nat) (key_length : Int)
    (hpos : 0 < key_length)
    (hagree : ∀ j : Nat, (j : Int) < key_length → key1 j = key2 j) (st : MTState) :
    init_by_array key1 key_length st = init_by_array key2 key_length st := by
  unfold init_by_array
  simp only [init_by_array_pass1_congr key1 key2 key_length hagree _ _ _ 0 (by omega)]

/-- For a key of `1 ≤ count ≤ 624` words the seeding is a function of
`numbers[0..count)` alone: neither the other entries of `numbers` nor the initial
content of the buffer matter. -/
theorem seedRandomWithArray_deterministic (numbers1 numbers2 : Nat → Nat) (count : Int)
    (frame1 frame2 : Nat → Nat) (st : MTState) (h1 : 1 ≤ count) (h2 : count ≤ 624)
    (hagree : ∀ i : Nat, (i : Int) < count → numbers1 i % 2 ^ 32 = numbers2 i % 2 ^ 32) :
    seedRandomWithArray numbers1 count frame1 st
      = seedRandomWithArray numbers2 count frame2 st := by
  have hkey : init_by_array
        (fun j => if j < count.toNat then numbers1 j % 2 ^ 32 else frame1 j) (max count 0) st
      = init_by_array
        (fun j => if j < count.toNat then numbers2 j % 2 ^ 32 else frame2 j)
        (max count 0) st := by
    apply init_by_array_congr _ _ (max count 0) (by omega)
    intro j hj
    show (if j < count.toNat then numbers1 j % 2 ^ 32 else frame1 j)
      = (if j < count.toNat then numbers2 j % 2 ^ 32 else frame2 j)
    rw [if_pos (by omega), if_pos (by omega)]
    exact hagree j (by omega)
  rw [seedRandomWithArray_of_le numbers1 count frame1 st h2,
    seedRandomWithArray_of_le numbers2 count frame2 st h2, hkey]

/-- C9, at the failing input: with `count = 0` the loop stores nothing and
`init_by_array` is handed the untouched buffer with key length 0; its first pass
still reads `init_key[0]`.  Two runs on the same (empty) seed sequence that differ
only in the prior content of `seeds[0]` (0 and 1) leave generators whose first
outputs are 3626764237 and 577090037. -/
theorem seedRandomWithArray_empty_key_reads_buffer :
    seedRandomWithArray (fun _ => 0) 0 (fun _ => 0) { mt := 0, mti := 0 }
        = .returned () (init_by_array (fun _ => 0) 0 { mt := 0, mti := 0 }) ∧
      seedRandomWithArray (fun _ => 0) 0 (fun _ => 1) { mt := 0, mti := 0 }
        = .returned () (init_by_array (fun _ => 1) 0 { mt := 0, mti := 0 }) ∧
      (genrand_int32 (init_by_array (fun _ => 0) 0 { mt := 0, mti := 0 })).1 = 3626764237 ∧
      (genrand_int32 (init_by_array (fun _ => 1) 0 { mt := 0, mti := 0 })).1 = 577090037 := by
  refine ⟨rfl, rfl, ?_, ?_⟩
  · decide!
  · decide!

/-! ## C11 and C12: the index of the generator and the twist -/

theorem genrand_int32_of_ge (st : MTState) (h : st.mti ≥ N) :
    genrand_int32 st = (temper (word (twist st.mt) 0), { mt := twist st.mt, mti := 1 }) := by
  unfold genrand_int32
  simp only [if_pos h]

theorem genrand_int32_of_lt (st : MTState) (h : st.mti < N) :
    genrand_int32 st = (temper (word st.mt st.mti), { mt := st.mt, mti := st.mti + 1 }) := by
  have h1 : ¬ st.mti ≥ N := by omega
  unfold genrand_int32
  simp only [if_neg h1]

theorem genrand_int32_mti (st : MTState) :
    (genrand_int32 st).2.mti = if st.mti ≥ N then 1 else st.mti + 1 := by
  by_cases h : st.mti ≥ N
  · rw [genrand_int32_of_ge st h, if_pos h]
  · rw [genrand_int32_of_lt st (by omega), if_neg h]

theorem SeedCall_run_mti (c : SeedCall) (st : MTState) : (c.run st).mti = N := by
  cases c with
  | scalar s => rfl
  | array init_key key_length => rfl

theorem Extraction_run_mti_le (e : Extraction) (st : MTState) (h : st.mti ≤ N) :
    (e.run st).mti ≤ N := by
  have h1 := genrand_int32_mti st
  have hN : N = 624 := rfl
  cases e with
  | u32 =>
    show (genrand_int32 st).2.mti ≤ N
    rw [h1]
    split <;> omega
  | u31 =>
    show (genrand_int32 st).2.mti ≤ N
    rw [h1]
    split <;> omega

theorem runExtractions_mti_le (st : MTState) (es : List Extraction) (h : st.mti ≤ N) :
    (runExtractions st es).mti ≤ N := by
  induction es generalizing st with
  | nil => exact h
  | cons e es ih => exact ih (e.run st) (Extraction_run_mti_le e st h)

/-- C11: in every state reached from a seeding call by any sequence of `next_u32` /
`next_u31` extractions the index lies in `[0, 624]`; and an extraction that starts
with index 624 first regenerates the state by the full twist (all `N = 624` words)
and only then reads a word, namely word 0 of the regenerated state. -/
theorem index_invariant_and_twist (c : SeedCall) (prior : MTState)
    (es : List Extraction) :
    0 ≤ (runExtractions (c.run prior) es).mti ∧
      (runExtractions (c.run prior) es).mti ≤ 624 ∧
      ∀ st : MTState, st.mti = 624 →
        genrand_int32 st
            = (temper (word (twist st.mt) 0), { mt := twist st.mt, mti := 1 }) ∧
          genrand_int31 st
            = (temper (word (twist st.mt) 0) >>> 1, { mt := twist st.mt, mti := 1 }) ∧
          twist st.mt = twist_loop st.mt 0 624 := by
  refine ⟨Nat.zero_le _, ?_, ?_⟩
  · exact runExtractions_mti_le _ es (le_of_eq (SeedCall_run_mti c prior))
  · intro st h
    have hge : st.mti ≥ N := by rw [h]; exact Nat.le_refl _
    refine ⟨genrand_int32_of_ge st hge, ?_, rfl⟩
    unfold genrand_int31
    rw [genrand_int32_of_ge st hge]

/-- C11, witness: the state left by `seed_scalar(5489)` has index 624, so the first
extraction from it twists before it reads. -/
theorem index_invariant_and_twist_witness :
    (runExtractions ((SeedCall.scalar 5489).run { mt := 0, mti := 0 }) [.u32, .u31]).mti ≤ 624 ∧
      genrand_int32 (init_genrand 5489 { mt := 0, mti := 0 })
        = (temper (word (twist (init_genrand 5489 { mt := 0, mti := 0 }).mt) 0),
            { mt := twist (init_genrand 5489 { mt := 0, mti := 0 }).mt, mti := 1 }) :=
  ⟨(index_invariant_and_twist (.scalar 5489) { mt := 0, mti := 0 } [.u32, .u31]).2.1,
    ((index_invariant_and_twist (.scalar 5489) { mt := 0, mti := 0 } []).2.2
      (init_genrand 5489 { mt := 0, mti := 0 }) rfl).1⟩

theorem twistCount_zero (st : MTState) : twistCount st 0 = 0 := rfl

theorem twistCount_succ (st : MTState) (n : Nat) :
    twistCount st (n + 1)
      = (if st.mti ≥ N then 1 else 0) + twistCount (genrand_int32 st).2 n := rfl

theorem twistCount_closed_form (st : MTState) (n : Nat) (h : st.mti ≤ N) :
    twistCount st n = (st.mti + n - 1) / 624 := by
  have hN : N = 624 := rfl
  induction n generalizing st with
  | zero =>
    rw [twistCount_zero]
    omega
  | succ n ih =>
    have h1 := genrand_int32_mti st
    rw [twistCount_succ]
    by_cases hge : st.mti ≥ N
    · rw [if_pos hge] at h1 ⊢
      rw [ih _ (by omega), h1]
      omega
    · rw [if_neg hge] at h1 ⊢
      rw [ih _ (by omega), h1]
      omega

theorem afterCalls_mti (st : MTState) (n : Nat) (h1 : 1 ≤ st.mti) (h2 : st.mti + n ≤ N) :
    (afterCalls st n).mti = st.mti + n := by
  have hN : N = 624 := rfl
  induction n generalizing st with
  | zero => rfl
  | succ n ih =>
    have h3 := genrand_int32_mti st
    rw [if_neg (by omega)] at h3
    show (afterCalls (genrand_int32 st).2 n).mti = st.mti + (n + 1)
    rw [ih _ (by omega) (by omega), h3]
    omega

theorem afterCalls_add (st : MTState) (a b : Nat) :
    afterCalls st (a + b) = afterCalls (afterCalls st a) b := by
  induction a generalizing st with
  | zero => rw [Nat.zero_add]; rfl
  | succ a ih =>
    rw [Nat.add_right_comm]
    exact ih (genrand_int32 st).2

/-- C12, counterexample: from the state left by `seed_with_array` on the key
`{0x123, 0x234, 0x345, 0x456}`, the 625 consecutive `next_u32()` calls perform two
twists, not one. -/
theorem twistCount_625_counterexample :
    twistCount (init_by_array
        (fun j => if j = 0 then 0x123 else if j = 1 then 0x234 else if j = 2 then 0x345
          else 0x456) 4 { mt := 0, mti := 0 }) 625 = 2 ∧ (2 : Nat) ≠ 1 := by
  refine ⟨?_, by decide⟩
  rw [twistCount_closed_form _ 625 (le_of_eq rfl)]
  rfl

/-- C12, amended: starting from the state left by `seed_with_array` (any seed
sequence), the first `next_u32()` call performs a twist (the seeding leaves index
624), the 623 calls after it perform none and bring the index back to 624, and the
625th call performs one more: the first 624 calls perform exactly one twist and the
625 calls exactly two. -/
theorem twistCount_after_seed (init_key : Nat → Nat) (key_length : Int)
    (prior : MTState) :
    twistCount (init_by_array init_key key_length prior) 1 = 1 ∧
      twistCount (afterCalls (init_by_array init_key key_length prior) 1) 623 = 0 ∧
      (afterCalls (init_by_array init_key key_length prior) 624).mti = 624 ∧
      twistCount (afterCalls (init_by_array init_key key_length prior) 624) 1 = 1 ∧
      twistCount (init_by_array init_key key_length prior) 624 = 1 ∧
      twistCount (init_by_array init_key key_length prior) 625 = 2 := by
  have hN : N = 624 := rfl
  have hs : (init_by_array init_key key_length prior).mti = N := rfl
  have h1 : (afterCalls (init_by_array init_key key_length prior) 1).mti = 1 := by
    show (genrand_int32 (init_by_array init_key key_length prior)).2.mti = 1
    rw [genrand_int32_mti, if_pos (by omega)]
  have h624 : (afterCalls (init_by_array init_key key_length prior) (1 + 623)).mti
      = 624 := by
    rw [afterCalls_add, afterCalls_mti _ 623 (by omega) (by omega), h1]
  refine ⟨?_, ?_, h624, ?_, ?_, ?_⟩
  · rw [twistCount_closed_form _ 1 (by omega), hs, hN]
  · rw [twistCount_closed_form _ 623 (by omega), h1]
  · have h5 : (afterCalls (init_by_array init_key key_length prior) 624).mti = 624 := h624
    rw [twistCount_closed_form _ 1 (by omega), h5]
  · rw [twistCount_closed_form _ 624 (by omega), hs, hN]
  · rw [twistCount_closed_form _ 625 (by omega), hs, hN]

/-! ## C13: the `unsigned int` return type -/

/-- C13: for 32-bit `min < max` with `max - min ≤ 2^31 - 1`, every accepted draw
`base` makes the call return `(min + base / bucket) mod 2^32`, and every value the
call returns has this form.  The returned number lies in `[min, max)` when
`min ≥ 0`; when the selected value `min + base / bucket` is negative the returned
number is that value plus `2^32`, which is at least `2^31`. -/
theorem getRandomNumberWithMin_unsigned_result (min max : Int)
    (hmin : INT_MIN ≤ min) (hmax : max ≤ INT_MAX) (hlt : min < max)
    (hrep : max - min ≤ 2 ^ 31 - 1) :
    (∀ base : Int, 0 ≤ base → base < RAND_MAX - RAND_MAX % (max - min) →
      attempt min max base
          = .accept ((min + base / (RAND_MAX / (max - min))) % 2 ^ 32).toNat ∧
        (0 ≤ min →
          min ≤ (min + base / (RAND_MAX / (max - min))) % 2 ^ 32 ∧
          (min + base / (RAND_MAX / (max - min))) % 2 ^ 32 < max) ∧
        (min + base / (RAND_MAX / (max - min)) < 0 →
          (min + base / (RAND_MAX / (max - min))) % 2 ^ 32
            = min + base / (RAND_MAX / (max - min)) + 2 ^ 32 ∧
          2 ^ 31 ≤ (min + base / (RAND_MAX / (max - min))) % 2 ^ 32)) ∧
      ∀ (fuel : Nat) (st st1 : MTState) (v : Nat),
        getRandomNumberWithMin fuel min max st = .returned v st1 →
        ∃ base : Int, 0 ≤ base ∧ base < RAND_MAX - RAND_MAX % (max - min) ∧
          (v : Int) = (min + base / (RAND_MAX / (max - min))) % 2 ^ 32 := by
  have hrep1 : max - min ≤ INT_MAX := by unfold INT_MAX; omega
  have hmin1 : -2147483648 ≤ min := hmin
  have hmax1 : max ≤ 2147483647 := hmax
  have hbody : ∀ base : Int, 0 ≤ base → base < RAND_MAX - RAND_MAX % (max - min) →
      attempt min max base
        = .accept ((min + base / (RAND_MAX / (max - min))) % 2 ^ 32).toNat := by
    intro base hb0 hacc
    rw [attempt_of_pos_range min max base hmin hmax hlt hrep1 hb0, if_pos hacc, toUInt32_eq]
  constructor
  · intro base hb0 hacc
    have hq := quotient_lt_range (max - min) base (by omega) (by omega) hb0 hacc
    refine ⟨hbody base hb0 hacc, fun h0 => ?_, fun hneg => ?_⟩
    · constructor <;> omega
    · constructor <;> omega
  · intro fuel st st1 v h
    obtain ⟨n, _, hn, _, _⟩ := returned_inv fuel min max st st1 v h
    rw [attempt_of_pos_range min max _ hmin hmax hlt hrep1 (nthDraw_nonneg st n)] at hn
    by_cases hacc : nthDraw st n < RAND_MAX - RAND_MAX % (max - min)
    · rw [if_pos hacc] at hn
      simp only [Attempt.accept.injEq] at hn
      refine ⟨nthDraw st n, nthDraw_nonneg st n, hacc, ?_⟩
      rw [← hn, toUInt32_eq]
      exact Int.toNat_of_nonneg (Int.emod_nonneg _ (by norm_num))
    · rw [if_neg hacc] at hn
      exact absurd hn (by simp)

/-- C13, witness: the range `[-5, 0)`. -/
theorem getRandomNumberWithMin_unsigned_result_witness :
    attempt (-5) 0 0 = .accept ((-5 + 0 / (RAND_MAX / (0 - -5))) % 2 ^ 32).toNat ∧
      ((-5 : Int) + 0 / (RAND_MAX / (0 - -5)) < 0 →
        (-5 + 0 / (RAND_MAX / (0 - -5))) % 2 ^ 32
          = -5 + 0 / (RAND_MAX / (0 - -5)) + 2 ^ 32 ∧
        (2 : Int) ^ 31 ≤ (-5 + 0 / (RAND_MAX / (0 - -5))) % 2 ^ 32) :=
  ⟨((getRandomNumberWithMin_unsigned_result (-5) 0 (by decide) (by decide) (by decide)
      (by decide)).1 0 (by decide) (by decide)).1,
    ((getRandomNumberWithMin_unsigned_result (-5) 0 (by decide) (by decide) (by decide)
      (by decide)).1 0 (by decide) (by decide)).2.2⟩

/-! ## C14: inverted ranges -/

theorem attempt_of_neg_range (min max base : Int)
    (hmin : min ≤ INT_MAX) (hmax : INT_MIN ≤ max) (hlt : max < min)
    (hrep : min - max ≤ INT_MAX) (hb0 : 0 ≤ base) :
    attempt min max base =
      if base < (min - max) * (RAND_MAX / (min - max))
      then .accept (toUInt32 (min - base / (RAND_MAX / (min - max))))
      else .retry := by
  unfold INT_MAX at hmin hrep
  unfold INT_MIN at hmax
  have hk1 : 1 ≤ min - max := by omega
  have hneg : max - min = -(min - max) := by ring
  have hmod : RAND_MAX.tmod (max - min) = RAND_MAX % (min - max) := by
    rw [hneg, Int.tmod_neg]
    exact Int.tmod_eq_emod (by decide) (by omega)
  have hdiv : RAND_MAX.tdiv (max - min) = -(RAND_MAX / (min - max)) := by
    rw [hneg, Int.tdiv_neg, Int.tdiv_eq_ediv (by decide) (by omega)]
  have hbk := bucket_pos (min - max) hk1 hrep
  have hdiv2 : base.tdiv (-(RAND_MAX / (min - max))) = -(base / (RAND_MAX / (min - max))) := by
    rw [Int.tdiv_neg, Int.tdiv_eq_ediv hb0 (by omega)]
  have hrange : inInt32 (max - min) = true := (inInt32_iff _).2 ⟨by omega, by omega⟩
  have hne : max - min ≠ 0 := by omega
  have hmul := accepted_eq_mul (min - max)
  have hrem : 0 ≤ RAND_MAX % (min - max) := Int.emod_nonneg _ (by omega)
  unfold attempt
  by_cases hRb : RAND_MAX = base
  · have : ¬ base < (min - max) * (RAND_MAX / (min - max)) := by omega
    rw [if_pos hRb, if_neg this]
  · by_cases hacc : base < (min - max) * (RAND_MAX / (min - max))
    · have hacc1 : base < RAND_MAX - RAND_MAX % (min - max) := by omega
      have hq := quotient_lt_range (min - max) base hk1 hrep hb0 hacc1
      have hv : inInt32 (min + -(base / (RAND_MAX / (min - max)))) = true :=
        (inInt32_iff _).2 ⟨by omega, by omega⟩
      have hbne : -(RAND_MAX / (min - max)) ≠ 0 := by omega
      have hsub : min + -(base / (RAND_MAX / (min - max)))
          = min - base / (RAND_MAX / (min - max)) := by ring
      have hv2 : inInt32 (min - base / (RAND_MAX / (min - max))) = true := by
        rw [← hsub]; exact hv
      simp [hRb, hrange, hne, hmod, hdiv, hdiv2, hacc1, hacc, hbne, hv, hv2, hsub]
    · have hacc1 : ¬ base < RAND_MAX - RAND_MAX % (min - max) := by omega
      simp [hRb, hrange, hne, hmod, hdiv, hacc1, hacc]

/-- C14, counterexample: on the inverted range `min = -3`, `max = -10`, from a
generator whose next draw is `0`, the draw is accepted and the call returns the
`unsigned int` 4294967293, which is not in `(-10, -3]`. -/
theorem getRandomNumberWithMin_inverted_range_counterexample :
    (-10 : Int) < -3 ∧ (-3 : Int) - -10 ≤ 2 ^ 31 - 1 ∧
      nthDraw { mt := 0, mti := 0 } 0 < (-3 - -10) * (RAND_MAX / (-3 - -10)) ∧
      getRandomNumberWithMin 1 (-3) (-10) { mt := 0, mti := 0 }
        = .returned 4294967293 { mt := 0, mti := 1 } ∧
      ¬ ((-10 : Int) < ((4294967293 : Nat) : Int) ∧ ((4294967293 : Nat) : Int) ≤ -3) := by
  decide

/-- C14, amended: for a 32-bit inverted range `max < min` with
`min - max ≤ 2^31 - 1`, no draw makes `getRandomNumberWithMin` undefined (in
particular it never divides by zero) and the function has no error result; every
draw `base < (min - max) * ((2^31 - 1) / (min - max))` is accepted and makes the call
return `(min - base / ((2^31 - 1) / (min - max))) mod 2^32`, the `unsigned int`
conversion of a value `w` with `max < w ≤ min`; read back as an `int` the returned
number is `w`, and it is `w` itself, hence in `(max, min]`, whenever `max ≥ -1`. -/
theorem getRandomNumberWithMin_inverted_range (min max : Int)
    (hmin : min ≤ INT_MAX) (hmax : INT_MIN ≤ max) (hlt : max < min)
    (hrep : min - max ≤ 2 ^ 31 - 1) :
    (∀ (fuel : Nat) (st : MTState) (ub : Undefined),
        getRandomNumberWithMin fuel min max st ≠ .undefined ub) ∧
      (∀ base : Int, 0 ≤ base → ∀ ub, attempt min max base ≠ .undefined ub) ∧
      (∀ base : Int, 0 ≤ base → base < (min - max) * (RAND_MAX / (min - max)) →
        attempt min max base
            = .accept (toUInt32 (min - base / (RAND_MAX / (min - max)))) ∧
          ((toUInt32 (min - base / (RAND_MAX / (min - max))) : Nat) : Int)
            = (min - base / (RAND_MAX / (min - max))) % 2 ^ 32 ∧
          toInt32 ((toUInt32 (min - base / (RAND_MAX / (min - max))) : Nat) : Int)
            = min - base / (RAND_MAX / (min - max)) ∧
          (-1 ≤ max → ((toUInt32 (min - base / (RAND_MAX / (min - max))) : Nat) : Int)
            = min - base / (RAND_MAX / (min - max))) ∧
          max < min - base / (RAND_MAX / (min - max)) ∧
          min - base / (RAND_MAX / (min - max)) ≤ min) ∧
      ∀ (fuel : Nat) (st : MTState),
        nthDraw st 0 < (min - max) * (RAND_MAX / (min - max)) →
        getRandomNumberWithMin (fuel + 1) min max st
          = .returned (toUInt32 (min - nthDraw st 0 / (RAND_MAX / (min - max))))
              (afterDraws st 1) := by
  have hrep1 : min - max ≤ INT_MAX := by unfold INT_MAX; omega
  have hmin1 : min ≤ 2147483647 := hmin
  have hmax1 : -2147483648 ≤ max := hmax
  have hbody : ∀ base : Int, 0 ≤ base → ∀ ub, attempt min max base ≠ .undefined ub := by
    intro base hb0 ub
    rw [attempt_of_neg_range min max base hmin hmax hlt hrep1 hb0]
    split <;> simp
  refine ⟨?_, hbody, ?_, ?_⟩
  · intro fuel st ub h
    obtain ⟨n, _, hn⟩ := undefined_inv fuel min max st ub h
    exact hbody _ (nthDraw_nonneg st n) ub hn
  · intro base hb0 hacc
    have hacc1 : base < RAND_MAX - RAND_MAX % (min - max) := by
      rw [accepted_eq_mul]; exact hacc
    have hq := quotient_lt_range (min - max) base (by omega) (by omega) hb0 hacc1
    refine ⟨?_, toUInt32_cast _, ?_, ?_, by omega, by omega⟩
    · rw [attempt_of_neg_range min max base hmin hmax hlt hrep1 hb0, if_pos hacc]
    · apply toInt32_toUInt32
      · unfold INT_MIN; omega
      · unfold INT_MAX; omega
    · intro h1
      exact toUInt32_of_nonneg _ (by omega) (by omega)
  · intro fuel st hacc
    apply returned_of_first_accept min max st 0 _ _ (fun i hi => absurd hi (Nat.not_lt_zero i))
      (fuel + 1) (Nat.succ_pos fuel)
    rw [attempt_of_neg_range min max _ hmin hmax hlt hrep1 (nthDraw_nonneg st 0), if_pos hacc]

/-- C14, witness: `min = 10`, `max = 3` on a generator whose next draw is `0`, and
the negative range `min = -3`, `max = -10` on the draw `0`. -/
theorem getRandomNumberWithMin_inverted_range_witness :
    getRandomNumberWithMin (0 + 1) 10 3 { mt := 0, mti := 0 }
        = .returned (toUInt32 (10 - nthDraw { mt := 0, mti := 0 } 0 / (RAND_MAX / (10 - 3))))
            (afterDraws { mt := 0, mti := 0 } 1) ∧
      attempt (-3) (-10) 0 = .accept (toUInt32 (-3 - 0 / (RAND_MAX / (-3 - -10)))) ∧
      ((toUInt32 (-3 - 0 / (RAND_MAX / (-3 - -10))) : Nat) : Int)
        = (-3 - 0 / (RAND_MAX / (-3 - -10))) % 2 ^ 32 :=
  ⟨(getRandomNumberWithMin_inverted_range 10 3 (by decide) (by decide) (by decide)
      (by decide)).2.2.2 0 { mt := 0, mti := 0 } (by decide),
    ((getRandomNumberWithMin_inverted_range (-3) (-10) (by decide) (by decide) (by decide)
      (by decide)).2.2.1 0 (by decide) (by decide)).1,
    ((getRandomNumberWithMin_inverted_range (-3) (-10) (by decide) (by decide) (by decide)
      (by decide)).2.2.1 0 (by decide) (by decide)).2.1⟩

/-! ## C15 and C18: the key handed to `init_by_array` -/

/-- C15: for every `0 ≤ count ≤ 624` the call ends in the single `init_by_array`
call of the source, made with key length exactly `count` on a buffer whose entry
`i` is `numbers[i]` (the `unsigned int` value, zero-extended) for every `i < count`:
no seed word is dropped, moved or altered. -/
theorem seedRandomWithArray_key (numbers : Nat → Nat) (count : Int) (frame : Nat → Nat)
    (st : MTState) (h0 : 0 ≤ count) (h1 : count ≤ 624) :
    ∃ seeds : Nat → Nat,
      seedRandomWithArray numbers count frame st
        = .returned () (init_by_array seeds count st) ∧
      (∀ i : Nat, (i : Int) < count → seeds i = numbers i % 2 ^ 32) ∧
      (∀ i : Nat, (i : Int) < count → numbers i < 2 ^ 32 → seeds i = numbers i) := by
  have hlen : max count 0 = count := by omega
  have hkey := seedRandomWithArray_of_le numbers count frame st h1
  rw [hlen] at hkey
  refine ⟨_, hkey, ?_, ?_⟩
  · intro i hi
    show (if i < count.toNat then numbers i % 2 ^ 32 else frame i) = numbers i % 2 ^ 32
    rw [if_pos (by omega)]
  · intro i hi hlt
    show (if i < count.toNat then numbers i % 2 ^ 32 else frame i) = numbers i
    rw [if_pos (by omega)]
    exact Nat.mod_eq_of_lt hlt

/-- C15, witness: three seed words. -/
theorem seedRandomWithArray_key_witness :
    ∃ seeds : Nat → Nat,
      seedRandomWithArray (fun i => i + 7) 3 (fun _ => 0) { mt := 0, mti := 0 }
        = .returned () (init_by_array seeds 3 { mt := 0, mti := 0 }) ∧
      (∀ i : Nat, (i : Int) < 3 → seeds i = (fun i => i + 7) i % 2 ^ 32) ∧
      (∀ i : Nat, (i : Int) < 3 → (fun i => i + 7) i < 2 ^ 32 →
        seeds i = (fun i => i + 7) i) :=
  seedRandomWithArray_key (fun i => i + 7) 3 (fun _ => 0) { mt := 0, mti := 0 }
    (by decide) (by decide)

/-- C18: for every `count ≤ 0` the call has a defined outcome that does not depend
on `numbers` (no element is read), hands `init_by_array` the buffer exactly as it
found it (no slot is written) with key length 0, and reports nothing. -/
theorem seedRandomWithArray_nonpositive_count (numbers : Nat → Nat) (count : Int)
    (frame : Nat → Nat) (st : MTState) (h : count ≤ 0) :
    seedRandomWithArray numbers count frame st
        = .returned () (init_by_array frame 0 st) ∧
      ∀ numbers2 : Nat → Nat,
        seedRandomWithArray numbers2 count frame st
          = seedRandomWithArray numbers count frame st := by
  have hk : count.toNat = 0 := by omega
  have hrun : ∀ nums : Nat → Nat,
      seedRandomWithArray nums count frame st = .returned () (init_by_array frame 0 st) := by
    intro nums
    unfold seedRandomWithArray
    rw [hk, seedRandomWithArray_loop_zero]
    rfl
  exact ⟨hrun numbers, fun numbers2 => by rw [hrun numbers2, hrun numbers]⟩

/-- C18, witness: `count = -3`. -/
theorem seedRandomWithArray_nonpositive_count_witness :
    seedRandomWithArray (fun i => i) (-3) (fun _ => 9) { mt := 0, mti := 0 }
        = .returned () (init_by_array (fun _ => 9) 0 { mt := 0, mti := 0 }) ∧
      ∀ numbers2 : Nat → Nat,
        seedRandomWithArray numbers2 (-3) (fun _ => 9) { mt := 0, mti := 0 }
          = seedRandomWithArray (fun i => i) (-3) (fun _ => 9) { mt := 0, mti := 0 } :=
  seedRandomWithArray_nonpositive_count (fun i => i) (-3) (fun _ => 9) { mt := 0, mti := 0 }
    (by decide)

/-! ## C16: at least half of the draws are accepted -/

theorem accepted_at_least_half (r : Int) (h1 : 1 ≤ r) (h2 : r ≤ 2147483647) :
    1073741824 ≤ r * (RAND_MAX / r) := by
  have hbk := bucket_pos r h1 h2
  by_cases hr : r ≤ 1073741824
  · have hmul := accepted_eq_mul r
    have hrem := Int.emod_lt_of_pos RAND_MAX (show 0 < r by omega)
    have hR : RAND_MAX = 2147483647 := rfl
    omega
  · have : r ≤ r * (RAND_MAX / r) := le_mul_of_one_le_right (by omega) hbk
    omega

/-- C16: for 32-bit `min < max` with `range = max - min ≤ 2^31 - 1`, the accepted
base values are exactly those below `(2^31 - 1) - remainder = range * bucket`; their
number is at least `2^30`, half of the `2^31` possible draws, so the accepted set is
never empty, and it is exactly `2^30` when `range = 2^30`. -/
theorem accepted_count_at_least_half (min max : Int)
    (hmin : INT_MIN ≤ min) (hmax : max ≤ INT_MAX) (hlt : min < max)
    (hrep : max - min ≤ 2 ^ 31 - 1) :
    RAND_MAX - RAND_MAX % (max - min) = (max - min) * (RAND_MAX / (max - min)) ∧
      ((Finset.range (2 ^ 31)).filter
        (fun b : Nat => (attempt min max (b : Int)).isAccept = true)).card
        = ((max - min) * (RAND_MAX / (max - min))).toNat ∧
      2 ^ 30 ≤ (max - min) * (RAND_MAX / (max - min)) ∧
      0 < ((Finset.range (2 ^ 31)).filter
        (fun b : Nat => (attempt min max (b : Int)).isAccept = true)).card ∧
      (max - min = 2 ^ 30 → (max - min) * (RAND_MAX / (max - min)) = 2 ^ 30) := by
  have hrep1 : max - min ≤ INT_MAX := by unfold INT_MAX; omega
  have hr1 : 1 ≤ max - min := by omega
  have hmul := accepted_eq_mul (max - min)
  have hhalf := accepted_at_least_half (max - min) hr1 (by omega)
  have hrem0 : 0 ≤ RAND_MAX % (max - min) := Int.emod_nonneg _ (by omega)
  have hR : RAND_MAX = 2147483647 := rfl
  have hset : (Finset.range (2 ^ 31)).filter
        (fun b : Nat => (attempt min max (b : Int)).isAccept = true)
      = Finset.range ((max - min) * (RAND_MAX / (max - min))).toNat := by
    ext b
    rw [Finset.mem_filter, Finset.mem_range, Finset.mem_range,
      attempt_of_pos_range min max b hmin hmax hlt hrep1 (by omega)]
    by_cases hacc : (b : Int) < RAND_MAX - RAND_MAX % (max - min)
    · rw [if_pos hacc]
      simp only [Attempt.isAccept, and_true]
      constructor
      · intro _
        omega
      · intro _
        norm_num
        omega
    · rw [if_neg hacc]
      simp only [Attempt.isAccept, Bool.false_eq_true, and_false, false_iff, not_lt]
      omega
  have hcard : ((Finset.range (2 ^ 31)).filter
        (fun b : Nat => (attempt min max (b : Int)).isAccept = true)).card
      = ((max - min) * (RAND_MAX / (max - min))).toNat := by
    rw [hset, Finset.card_range]
  refine ⟨hmul, hcard, by norm_num; exact hhalf, ?_, ?_⟩
  · rw [hcard]
    omega
  · intro h
    rw [h]
    decide

/-- C16, witness: the range `[0, 2^30)`, where exactly half of the draws are
accepted. -/
theorem accepted_count_at_least_half_witness :
    ((Finset.range (2 ^ 31)).filter
        (fun b : Nat => (attempt 0 1073741824 (b : Int)).isAccept = true)).card
        = ((1073741824 - 0) * (RAND_MAX / (1073741824 - 0))).toNat ∧
      ((1073741824 : Int) - 0 = 2 ^ 30 →
        ((1073741824 : Int) - 0) * (RAND_MAX / (1073741824 - 0)) = 2 ^ 30) :=
  ⟨(accepted_count_at_least_half 0 1073741824 (by decide) (by decide) (by decide)
      (by decide)).2.1,
    (accepted_count_at_least_half 0 1073741824 (by decide) (by decide) (by decide)
      (by decide)).2.2.2.2⟩

/-! ## C17: the results of `getRandomFloat` are exact -/

theorem roundToFloat_div_two_pow_24 (k : Nat) (hk : k < 2 ^ 24) :
    roundToFloat ((k : ℚ) / 2 ^ 24) = (k : ℚ) / 2 ^ 24 := by
  have h2 := roundToFloat_dyadic k (-24) hk
  have h3 : (k : ℚ) * (2 : ℚ) ^ (-24 : Int) = (k : ℚ) / 2 ^ 24 := by
    rw [zpow_neg, div_eq_mul_inv]
    norm_num
  rw [h3] at h2
  exact h2

/-- C17: every value `getRandomFloat` returns is `k / 2^24` with `k` the top 24 bits
of the draw, `0 ≤ k ≤ 2^24 - 1`; the conversion of `k` to `float` and the division by
`2^24` are both exact under round-to-nearest with a 24-bit significand, so the value
is representable; it is at most `1 - 2^-24`, a generator state attains that bound,
and draws with distinct top 24 bits give distinct results. -/
theorem getRandomFloat_exact (st : MTState) :
    (genrand_int32 st).1 / 2 ^ 8 ≤ 2 ^ 24 - 1 ∧
      (getRandomFloat st).1 = (((genrand_int32 st).1 / 2 ^ 8 : Nat) : ℚ) / 2 ^ 24 ∧
      roundToFloat (((genrand_int32 st).1 / 2 ^ 8 : Nat) : ℚ)
        = (((genrand_int32 st).1 / 2 ^ 8 : Nat) : ℚ) ∧
      roundToFloat ((((genrand_int32 st).1 / 2 ^ 8 : Nat) : ℚ) / 2 ^ 24)
        = (((genrand_int32 st).1 / 2 ^ 8 : Nat) : ℚ) / 2 ^ 24 ∧
      roundToFloat (getRandomFloat st).1 = (getRandomFloat st).1 ∧
      (getRandomFloat st).1 ≤ 1 - 1 / 2 ^ 24 ∧
      (getRandomFloat { mt := 316513203, mti := 0 }).1 = 1 - 1 / 2 ^ 24 ∧
      ∀ st2 : MTState, (getRandomFloat st).1 = (getRandomFloat st2).1 →
        (genrand_int32 st).1 / 2 ^ 8 = (genrand_int32 st2).1 / 2 ^ 8 := by
  have hu := genrand_int32_lt st
  have hk : (genrand_int32 st).1 / 2 ^ 8 < 2 ^ 24 := by omega
  have hval := getRandomFloat_eq st
  have hfst : (getRandomFloat st).1
      = (((genrand_int32 st).1 / 2 ^ 8 : Nat) : ℚ) / 2 ^ 24 := by rw [hval]
  refine ⟨by omega, hfst, roundToFloat_natCast _ hk, roundToFloat_div_two_pow_24 _ hk,
    ?_, ?_, ?_, ?_⟩
  · rw [hfst]
    exact roundToFloat_div_two_pow_24 _ hk
  · rw [hfst, div_le_iff₀ (by norm_num)]
    have h1 : (((genrand_int32 st).1 / 2 ^ 8 : Nat) : ℚ) ≤ ((2 ^ 24 - 1 : Nat) : ℚ) := by
      exact_mod_cast (show (genrand_int32 st).1 / 2 ^ 8 ≤ 2 ^ 24 - 1 by omega)
    have h2 : ((2 ^ 24 - 1 : Nat) : ℚ) = (1 - 1 / 2 ^ 24) * 2 ^ 24 := by norm_num
    rw [← h2]
    exact h1
  · have hd : (genrand_int32 { mt := 316513203, mti := 0 }).1 = 4294967295 := by decide
    rw [getRandomFloat_eq, hd]
    norm_num
  · intro st2 h
    rw [getRandomFloat_eq, getRandomFloat_eq] at h
    simp only at h
    field_simp at h
    exact_mod_cast h

/-- C17, witness: the draws `0` and `2^32 - 1` have distinct top 24 bits, hence
distinct results. -/
theorem getRandomFloat_exact_witness :
    (getRandomFloat { mt := 0, mti := 0 }).1
      ≠ (getRandomFloat { mt := 316513203, mti := 0 }).1 :=
  fun h => absurd
    ((getRandomFloat_exact { mt := 0, mti := 0 }).2.2.2.2.2.2.2
      { mt := 316513203, mti := 0 } h)
    (by decide)

end SkillzRandom
